import Mathlib

/-!
# WebServer: buffer, blocking deque, log, connection pool and event loop

A shallow embedding of `code/buffer/buffer.cpp`, `code/log/blockqueue.h`,
`code/log/log.cpp`, `code/pool/sqlconnpool.cpp` and `code/server/webserver.cpp`.

Conventions of the embedding

* `size_t` values are natural numbers below `SIZE_MOD = 2^64`; every `size_t`
  addition and subtraction of the source is written with an explicit
  reduction modulo `SIZE_MOD` (`sizeAdd`, `sizeSub`).
* `std::vector<char>` is a `List Byte`; `resize` throws `std::length_error` above
  `max_size()` (`PTRDIFF_MAX`) and succeeds otherwise (running out of memory is not
  modelled).
* A failed `assert`, a copy or read that leaves the storage, a `std::length_error` and a read
  through a pointer that a `resize` has invalidated are the faults an operation can raise;
  operations that contain one return `Except Fault _`.
* A `(const char*, size_t)` pair is the list of the `len` bytes it denotes, lying in memory
  of their own; the one caller that passes a pointer into a `Buffer`, `Append(const Buffer&)`,
  is modelled with that storage.
-/

/-! ## size_t arithmetic -/

/-- One byte of storage (`char`). -/
abbrev Byte := Fin 256

/-- The modulus of `size_t` arithmetic on the 64-bit target, `2^64`. -/
def SIZE_MOD : Nat := 18446744073709551616

/-- Largest `size_t` value. -/
def SIZE_MAX : Nat := SIZE_MOD - 1

/-- Largest size of an object or of a `std::vector<char>` (`PTRDIFF_MAX`, `2^63 - 1`). -/
def PTRDIFF_MAX : Nat := 9223372036854775807

/-- Addition of two `size_t` values (wraps). -/
def sizeAdd (a b : Nat) : Nat := (a + b) % SIZE_MOD

/-- Subtraction of two `size_t` values (wraps). -/
def sizeSub (a b : Nat) : Nat := (a % SIZE_MOD + (SIZE_MOD - b % SIZE_MOD)) % SIZE_MOD

/-- What can stop an operation: a failed `assert`, a copy or read outside the storage, the
`std::length_error` of `resize`, or a read through a pointer into storage that a `resize`
has since reallocated. -/
inductive Fault where
  | assertFailed
  | outOfBounds
  | lengthError
  | danglingRead
deriving DecidableEq, Repr

instance instDecidableEqExcept {ε α : Type} [DecidableEq ε] [DecidableEq α] :
    DecidableEq (Except ε α) := fun x y =>
  match x, y with
  | .ok a, .ok b => if h : a = b then isTrue (by rw [h]) else isFalse (by intro h1; cases h1; exact h rfl)
  | .error a, .error b => if h : a = b then isTrue (by rw [h]) else isFalse (by intro h1; cases h1; exact h rfl)
  | .ok _, .error _ => isFalse (by intro h; cases h)
  | .error _, .ok _ => isFalse (by intro h; cases h)

/-! ## std::vector and std::copy -/

/-- The call `std::vector<char>::resize(n)`: throws `std::length_error` when `n` exceeds
`max_size()`, which is `PTRDIFF_MAX` for `char`; otherwise keeps the first `n` bytes and pads
with zero bytes. -/
def vecResize (v : List Byte) (n : Nat) : Except Fault (List Byte) :=
  if n > PTRDIFF_MAX then
    .error .lengthError
  else
    .ok (v.take n ++ List.replicate (n - v.length) 0)

/-- The call `std::copy(src, src + src.length, base + pos)` into the storage `buf`; a copy of
no bytes writes nothing. -/
def copyTo (buf : List Byte) (pos : Nat) (src : List Byte) : Except Fault (List Byte) :=
  if pos + src.length ≤ buf.length then
    .ok (buf.take pos ++ src ++ buf.drop (pos + src.length))
  else if src.isEmpty then
    .ok buf
  else
    .error .outOfBounds

/-- The bytes in `[first, last)` of the storage `buf`. -/
def byteRange (buf : List Byte) (first last : Nat) : List Byte :=
  (buf.drop first).take (last - first)

/-! ## Buffer (code/buffer/buffer.cpp) -/

/-- The class `Buffer`: storage and the two cursors. -/
structure Buffer where
  buffer_ : List Byte
  readPos_ : Nat
  writePos_ : Nat
deriving DecidableEq, Repr

namespace Buffer

/-- The constructor `Buffer::Buffer(initBuffSize)`. -/
def init (initBuffSize : Nat) : Buffer :=
  { buffer_ := List.replicate initBuffSize 0, readPos_ := 0, writePos_ := 0 }

/-- The value of `buffer_.size()`. -/
def capacity (b : Buffer) : Nat := b.buffer_.length

/-- Method `Buffer::ReadableBytes`: `writePos_ - readPos_`. -/
def ReadableBytes (b : Buffer) : Nat := sizeSub b.writePos_ b.readPos_

/-- Method `Buffer::WritableBytes`: `buffer_.size() - writePos_`. -/
def WritableBytes (b : Buffer) : Nat := sizeSub b.buffer_.length b.writePos_

/-- Method `Buffer::PrependableBytes`: `readPos_`. -/
def PrependableBytes (b : Buffer) : Nat := b.readPos_

/-- The bytes `Peek()` points at, `ReadableBytes()` of them: the readable byte sequence. -/
def readable (b : Buffer) : List Byte :=
  (b.buffer_.drop b.readPos_).take b.ReadableBytes

/-- Method `Buffer::Retrieve(len)`. -/
def Retrieve (b : Buffer) (len : Nat) : Except Fault Buffer :=
  if len ≤ b.ReadableBytes then
    .ok { b with readPos_ := sizeAdd b.readPos_ len }
  else
    .error .assertFailed

/-- Method `Buffer::RetrieveUntil(end)`, the pointer `end` being `BeginPtr_() + e`. -/
def RetrieveUntil (b : Buffer) (e : Nat) : Except Fault Buffer :=
  if b.readPos_ ≤ e then
    b.Retrieve (sizeSub e b.readPos_)
  else
    .error .assertFailed

/-- Method `Buffer::RetrieveAll`: zero the storage, reset both cursors. -/
def RetrieveAll (b : Buffer) : Buffer :=
  { buffer_ := List.replicate b.buffer_.length 0, readPos_ := 0, writePos_ := 0 }

/-- Method `Buffer::RetrieveAllToStr`: the buffer afterwards and the string returned. -/
def RetrieveAllToStr (b : Buffer) : Buffer × List Byte :=
  let str := b.readable
  (b.RetrieveAll, str)

/-- Method `Buffer::HasWritten(len)`: `writePos_ += len`. -/
def HasWritten (b : Buffer) (len : Nat) : Buffer :=
  { b with writePos_ := sizeAdd b.writePos_ len }

/-- Method `Buffer::MakeSpace_(len)`. -/
def MakeSpace_ (b : Buffer) (len : Nat) : Except Fault Buffer :=
  if sizeAdd b.WritableBytes b.PrependableBytes < len then
    match vecResize b.buffer_ (sizeAdd (sizeAdd b.writePos_ len) 1) with
    | .error f => .error f
    | .ok buf => .ok { b with buffer_ := buf }
  else
    let readable := b.ReadableBytes
    match copyTo b.buffer_ 0 (byteRange b.buffer_ b.readPos_ b.writePos_) with
    | .error f => .error f
    | .ok buf =>
      let b1 : Buffer := { buffer_ := buf, readPos_ := 0, writePos_ := sizeAdd 0 readable }
      if readable = b1.ReadableBytes then .ok b1 else .error .assertFailed

/-- Method `Buffer::EnsureWriteable(len)`. -/
def EnsureWriteable (b : Buffer) (len : Nat) : Except Fault Buffer :=
  match (if b.WritableBytes < len then b.MakeSpace_ len else .ok b) with
  | .error f => .error f
  | .ok b1 => if b1.WritableBytes ≥ len then .ok b1 else .error .assertFailed

/-- Method `Buffer::Append(const char* str, size_t len)`, `str` being the `len` bytes passed,
which lie outside the storage of `b`. -/
def Append (b : Buffer) (str : List Byte) : Except Fault Buffer :=
  let len := str.length
  match b.EnsureWriteable len with
  | .error f => .error f
  | .ok b1 =>
    match copyTo b1.buffer_ b1.writePos_ str with
    | .error f => .error f
    | .ok buf => .ok (HasWritten { b1 with buffer_ := buf } len)

/-- Method `Buffer::Append(const std::string& str)`. -/
def AppendString (b : Buffer) (str : List Byte) : Except Fault Buffer :=
  b.Append str

/-- Method `Buffer::Append(const void* data, size_t len)`. -/
def AppendData (b : Buffer) (data : List Byte) : Except Fault Buffer :=
  b.Append data

/-- The argument of `Append(const Buffer& buff)`: the buffer itself, or another object. -/
inductive BufferRef where
  | self
  | other (buff : Buffer)
deriving DecidableEq, Repr

/-- Method `Buffer::Append(const Buffer& buff)`, that is `Append(buff.Peek(),
buff.ReadableBytes())`: the pointer `buff.Peek()` is taken first, into the storage of `buff`,
and `len` is `buff.ReadableBytes()` as computed in `size_t`; the bytes are read at the copy,
after `EnsureWriteable`. For another object the read leaves its storage when
`readPos_ + len` exceeds it. For the buffer itself the pointer is `BeginPtr_() + readPos_`
of before: after the `resize` of `MakeSpace_` it points into released storage; after a
compaction it points at what the compaction left at that offset; `std::copy` on `char` moves
the bytes as `memmove` does. -/
def AppendBuffer (b : Buffer) (buff : BufferRef) : Except Fault Buffer :=
  match buff with
  | .other o =>
    let len := o.ReadableBytes
    match b.EnsureWriteable len with
    | .error f => .error f
    | .ok b1 =>
      if o.readPos_ + len ≤ o.buffer_.length then
        match copyTo b1.buffer_ b1.writePos_ (byteRange o.buffer_ o.readPos_ (o.readPos_ + len)) with
        | .error f => .error f
        | .ok buf => .ok (HasWritten { b1 with buffer_ := buf } len)
      else
        .error .outOfBounds
  | .self =>
    let off := b.readPos_
    let len := b.ReadableBytes
    let resized : Bool :=
      decide (b.WritableBytes < len ∧ sizeAdd b.WritableBytes b.PrependableBytes < len)
    match b.EnsureWriteable len with
    | .error f => .error f
    | .ok b1 =>
      if resized then
        .error .danglingRead
      else if off + len ≤ b1.buffer_.length then
        match copyTo b1.buffer_ b1.writePos_ (byteRange b1.buffer_ off (off + len)) with
        | .error f => .error f
        | .ok buf => .ok (HasWritten { b1 with buffer_ := buf } len)
      else
        .error .outOfBounds

/-- What the kernel does on `readv`: it fails with an `errno`, or it has the bytes `d` to deliver. -/
inductive ReadvOutcome where
  | error (errno : Int)
  | bytes (d : List Byte)
deriving DecidableEq, Repr

/-- What the kernel does on `write`: it fails with an `errno`, or it takes `k` bytes. -/
inductive WriteOutcome where
  | error (errno : Int)
  | wrote (k : Nat)
deriving DecidableEq, Repr

/-- The call `readv(fd, iov, 2)` on delivered bytes `d`: the first `n0` bytes go to `iov[0]`, the
next `n1` bytes to `iov[1]`; what is beyond stays in the socket. -/
def readvScatter (d : List Byte) (n0 n1 : Nat) : List Byte × List Byte :=
  (d.take n0, (d.drop n0).take n1)

/-- The state after `ReadFd` or `WriteFd`: the buffer, the value returned and `*saveErrno`. -/
structure FdResult where
  buf : Buffer
  ret : Int
  saveErrno : Int
deriving DecidableEq, Repr

/-- The size of the spill array `char buff[65535]` of `ReadFd`. -/
def SPILL_SIZE : Nat := 65535

/-- Method `Buffer::ReadFd(fd, saveErrno)`, the kernel side of `readv` given by `r`;
`errno0` is `*saveErrno` before the call. -/
def ReadFd (b : Buffer) (r : ReadvOutcome) (errno0 : Int) : Except Fault FdResult :=
  let writable := b.WritableBytes
  match r with
  | .error errno => .ok { buf := b, ret := -1, saveErrno := errno }
  | .bytes d =>
    let parts := readvScatter d writable SPILL_SIZE
    let buff := parts.2
    let len := parts.1.length + parts.2.length
    match copyTo b.buffer_ b.writePos_ parts.1 with
    | .error f => .error f
    | .ok buf0 =>
      let b0 : Buffer := { b with buffer_ := buf0 }
      if len ≤ writable then
        .ok { buf := { b0 with writePos_ := sizeAdd b0.writePos_ len }, ret := len,
              saveErrno := errno0 }
      else
        let b1 : Buffer := { b0 with writePos_ := b0.buffer_.length }
        match b1.Append (buff.take (sizeSub len writable)) with
        | .error f => .error f
        | .ok b2 => .ok { buf := b2, ret := len, saveErrno := errno0 }

/-- Method `Buffer::WriteFd(fd, saveErrno)`, the kernel side of `write` given by `w`;
`errno0` is `*saveErrno` before the call. A `write` of `readSize` bytes takes at most
`readSize` of them. -/
def WriteFd (b : Buffer) (w : WriteOutcome) (errno0 : Int) : FdResult :=
  let readSize := b.ReadableBytes
  match w with
  | .error errno => { buf := b, ret := -1, saveErrno := errno }
  | .wrote k =>
    let len := min k readSize
    { buf := { b with readPos_ := sizeAdd b.readPos_ len }, ret := len, saveErrno := errno0 }

/-- The invariant `readPos_ ≤ writePos_ ≤ buffer_.size()`. -/
def Inv (b : Buffer) : Prop :=
  b.readPos_ ≤ b.writePos_ ∧ b.writePos_ ≤ b.buffer_.length

instance instDecidableInv (b : Buffer) : Decidable b.Inv :=
  inferInstanceAs (Decidable (b.readPos_ ≤ b.writePos_ ∧ b.writePos_ ≤ b.buffer_.length))

end Buffer


/-! ## BlockDeque (code/log/blockqueue.h)

Every member function runs under the mutex `mtx_`. An operation of the model is the
section of a call, under the mutex, in which the call returns; a call that has to wait on a
condition variable does not return in that section (`none`). -/

/-- The class `BlockDeque<T>`: the deque, its capacity and the closed flag. -/
structure BlockDeque (T : Type) where
  deq_ : List T
  capacity_ : Nat
  isClose_ : Bool
deriving DecidableEq, Repr

/-- How a consumer reaches the loop of `pop`: on entry, woken by a notification (or
spuriously), or (`pop` with timeout only) by the timeout of `wait_for`. -/
inductive Wake where
  | entry
  | notified
  | timeout
deriving DecidableEq, Repr

/-- What a `pop` that returns leaves: the deque, the value returned, and the item stored
through the reference (`none`: the reference was not written). -/
structure PopResult (T : Type) where
  q : BlockDeque T
  ret : Bool
  item : Option T
deriving DecidableEq, Repr

namespace BlockDeque

variable {T : Type}

/-- The constructor `BlockDeque(MaxCapacity)`, with its `assert(MaxCapacity > 0)`. -/
def init (MaxCapacity : Nat) : Except Fault (BlockDeque T) :=
  if MaxCapacity > 0 then
    .ok { deq_ := [], capacity_ := MaxCapacity, isClose_ := false }
  else
    .error .assertFailed

/-- Method `BlockDeque::Close`. -/
def Close (q : BlockDeque T) : BlockDeque T :=
  { q with deq_ := [], isClose_ := true }

/-- Method `BlockDeque::flush`: a notification only. -/
def flush (q : BlockDeque T) : BlockDeque T := q

/-- Method `BlockDeque::clear`. -/
def clear (q : BlockDeque T) : BlockDeque T :=
  { q with deq_ := [] }

/-- Method `BlockDeque::size`. -/
def size (q : BlockDeque T) : Nat := q.deq_.length

/-- Method `BlockDeque::capacity`. -/
def capacity (q : BlockDeque T) : Nat := q.capacity_

/-- Method `BlockDeque::empty`. -/
def empty (q : BlockDeque T) : Bool := q.deq_.isEmpty

/-- Method `BlockDeque::full`: `deq_.size() >= capacity_`. -/
def full (q : BlockDeque T) : Bool := decide (q.deq_.length ≥ q.capacity_)

/-- Method `BlockDeque::push_back`: waits while `deq_.size() >= capacity_`. -/
def push_back (q : BlockDeque T) (item : T) : Option (BlockDeque T) :=
  if q.deq_.length ≥ q.capacity_ then none
  else some { q with deq_ := q.deq_ ++ [item] }

/-- Method `BlockDeque::push_front`: waits while `deq_.size() >= capacity_`. -/
def push_front (q : BlockDeque T) (item : T) : Option (BlockDeque T) :=
  if q.deq_.length ≥ q.capacity_ then none
  else some { q with deq_ := item :: q.deq_ }

/-- Method `BlockDeque::pop(item)`. On entry the loop test comes first; after a wake-up the
test of `isClose_` comes first, then the loop test. An empty deque sends the call (back) to
`wait`. -/
def pop (q : BlockDeque T) (w : Wake) : Option (PopResult T) :=
  if w ≠ Wake.entry ∧ q.isClose_ = true then
    some { q := q, ret := false, item := none }
  else
    match q.deq_ with
    | [] => none
    | x :: rest => some { q := { q with deq_ := rest }, ret := true, item := some x }

/-- Method `BlockDeque::pop(item, timeout)`: as `pop`, and a wake-up by timeout returns `false`. -/
def popTimeout (q : BlockDeque T) (w : Wake) : Option (PopResult T) :=
  if w = Wake.timeout then
    some { q := q, ret := false, item := none }
  else if w ≠ Wake.entry ∧ q.isClose_ = true then
    some { q := q, ret := false, item := none }
  else
    match q.deq_ with
    | [] => none
    | x :: rest => some { q := { q with deq_ := rest }, ret := true, item := some x }

/-- The operations of a `BlockDeque`. -/
inductive Op (T : Type) where
  | push_back (item : T)
  | push_front (item : T)
  | pop (w : Wake)
  | popTimeout (w : Wake)
  | clear
  | Close
  | flush
deriving DecidableEq, Repr

/-- One completed operation: the deque afterwards (`none`: the call is still waiting). -/
def step (q : BlockDeque T) : Op T → Option (BlockDeque T)
  | .push_back item => q.push_back item
  | .push_front item => q.push_front item
  | .pop w => (q.pop w).map (fun r => r.q)
  | .popTimeout w => (q.popTimeout w).map (fun r => r.q)
  | .clear => some q.clear
  | .Close => some q.Close
  | .flush => some q.flush

/-- A sequence of completed operations, one after the other. -/
def run (q : BlockDeque T) : List (Op T) → Option (BlockDeque T)
  | [] => some q
  | op :: ops =>
    match q.step op with
    | none => none
    | some q1 => q1.run ops

/-- The calls `push_back(x1)`, ..., `push_back(xn)`, each completed. -/
def pushBackAll (q : BlockDeque T) : List T → Option (BlockDeque T)
  | [] => some q
  | x :: xs =>
    match q.push_back x with
    | none => none
    | some q1 => q1.pushBackAll xs

/-- The calls `push_front(x1)`, ..., `push_front(xn)`, each completed. -/
def pushFrontAll (q : BlockDeque T) : List T → Option (BlockDeque T)
  | [] => some q
  | x :: xs =>
    match q.push_front x with
    | none => none
    | some q1 => q1.pushFrontAll xs

/-- One `pop` per entry of `ws`, each returning: the deque afterwards and what each returned. -/
def popEach (q : BlockDeque T) : List Wake → Option (BlockDeque T × List (Bool × Option T))
  | [] => some (q, [])
  | w :: ws =>
    match q.pop w with
    | none => none
    | some r =>
      match r.q.popEach ws with
      | none => none
      | some (q2, rs) => some (q2, (r.ret, r.item) :: rs)

/-- The operations that are not a push. -/
def Op.isPush : Op T → Bool
  | .push_back _ => true
  | .push_front _ => true
  | _ => false

end BlockDeque

/-! ## Log rotation (code/log/log.cpp, `Log::write`, the block before the line is formatted)

`log.h` is not among the sources; its constants are taken from the specification. -/

/-- Modelled from the spec: the constant `MAX_LINES` of `log.h` (the header is missing), 50 000
lines per file. -/
def MAX_LINES : Nat := 50000

/-- Modelled from the spec: the constant `LOG_NAME_LEN` of `log.h` (the header is missing), 256. -/
def LOG_NAME_LEN : Nat := 256

/-- A C string, without its terminating zero. -/
abbrev CStr := List Char

/-- The conversion `%d` of a value that is not negative. -/
def fmtD (n : Nat) : CStr := (Nat.repr n).data

/-- The conversion `%0wd` of a value that is not negative: at least `w` digits, zero padded. -/
def fmtPad (w n : Nat) : CStr :=
  List.replicate (w - (fmtD n).length) '0' ++ fmtD n

/-- The call `snprintf(buf, size, ...)` whose full output would be `out`: at most `size - 1`
characters are stored. -/
def snprintf (size : Nat) (out : CStr) : CStr := out.take (size - 1)

/-- The fields of `struct tm` that `Log::write` uses for the file name (`tm_year` counts from
1900, `tm_mon` from 0); for the wall-clock time none is negative. -/
structure Tm where
  tm_year : Nat
  tm_mon : Nat
  tm_mday : Nat
deriving DecidableEq, Repr

/-- The part of the class `Log` that rotation reads and writes; `fp_` is the name of the file
the stream is open on. -/
structure Log where
  lineCount_ : Nat
  toDay_ : Nat
  path_ : CStr
  suffix_ : CStr
  fp_ : CStr
deriving DecidableEq, Repr

namespace Log

/-- The output of the format `%04d_%02d_%02d` on year, month and day. -/
def dateText (t : Tm) : CStr :=
  fmtPad 4 (t.tm_year + 1900) ++ ['_'] ++ fmtPad 2 (t.tm_mon + 1) ++ ['_'] ++ fmtPad 2 t.tm_mday

/-- The array `tail[36]` after `snprintf(tail, 36, "%04d_%02d_%02d", ...)`. -/
def tail (t : Tm) : CStr := snprintf 36 (dateText t)

/-- The rotation block of `Log::write` (the `if` before the write block): the state afterwards
and the name passed to `fopen`, if a file was opened. Opening succeeds (the `assert` after
`fopen` holds). -/
def rotate (s : Log) (t : Tm) : Log × Option CStr :=
  if s.toDay_ ≠ t.tm_mday ∨ (s.lineCount_ ≠ 0 ∧ s.lineCount_ % MAX_LINES = 0) then
    if s.toDay_ ≠ t.tm_mday then
      let newFile := snprintf (LOG_NAME_LEN - 72) (s.path_ ++ ['/'] ++ tail t ++ s.suffix_)
      ({ s with toDay_ := t.tm_mday, lineCount_ := 0, fp_ := newFile }, some newFile)
    else
      let newFile := snprintf (LOG_NAME_LEN - 72)
        (s.path_ ++ ['/'] ++ tail t ++ ['-'] ++ fmtD (s.lineCount_ / MAX_LINES) ++ s.suffix_)
      ({ s with fp_ := newFile }, some newFile)
  else
    (s, none)

/-- The file and counter side of `Log::write`: the rotation block, then `lineCount_++` of the
write block. -/
def write (s : Log) (t : Tm) : Log × Option CStr :=
  let r := s.rotate t
  ({ r.1 with lineCount_ := r.1.lineCount_ + 1 }, r.2)

end Log

/-! ## SqlConnPool (code/pool/sqlconnpool.cpp) -/

/-- A `MYSQL*`: `none` is the null pointer. -/
abbrev MysqlPtr := Option Nat

/-- The class `SqlConnPool`: the queue of free handles, the semaphore value and `MAX_CONN_`. -/
structure SqlConnPool where
  MAX_CONN_ : Nat
  useCount_ : Nat
  freeCount_ : Nat
  connQue_ : List MysqlPtr
  semId_ : Nat
deriving DecidableEq, Repr

namespace SqlConnPool

/-- The constructor `SqlConnPool::SqlConnPool`. -/
def new : SqlConnPool :=
  { MAX_CONN_ := 0, useCount_ := 0, freeCount_ := 0, connQue_ := [], semId_ := 0 }

/-- The loop of `Init`: `k` more connections, the next one being number `i`; `connect i` is
what `mysql_real_connect` returns for it. -/
def initLoop (connect : Nat → MysqlPtr) : Nat → Nat → List MysqlPtr → List MysqlPtr
  | 0, _, que => que
  | k + 1, i, que => initLoop connect k (i + 1) (que ++ [connect i])

/-- Method `SqlConnPool::Init`, with its `assert(connSize > 0)`; `mysql_init` succeeds. -/
def Init (p : SqlConnPool) (connect : Nat → MysqlPtr) (connSize : Nat) : Except Fault SqlConnPool :=
  if connSize > 0 then
    .ok { p with connQue_ := initLoop connect connSize 0 p.connQue_, MAX_CONN_ := connSize,
                 semId_ := connSize }
  else
    .error .assertFailed

/-- Method `SqlConnPool::GetConn`: the pool afterwards and the handle returned; `none` while
the call waits in `sem_wait`. -/
def GetConn (p : SqlConnPool) : Option (SqlConnPool × MysqlPtr) :=
  match p.connQue_ with
  | [] => some (p, none)
  | sql :: rest =>
    if p.semId_ = 0 then none
    else some ({ p with semId_ := p.semId_ - 1, connQue_ := rest }, sql)

/-- Method `SqlConnPool::FreeConn`, with its `assert(sql)`. -/
def FreeConn (p : SqlConnPool) (sql : MysqlPtr) : Except Fault SqlConnPool :=
  match sql with
  | none => .error .assertFailed
  | some h => .ok { p with connQue_ := p.connQue_ ++ [some h], semId_ := p.semId_ + 1 }

/-- Method `SqlConnPool::GetFreeConnCount`. -/
def GetFreeConnCount (p : SqlConnPool) : Nat := p.connQue_.length

/-- A call made by a client of the pool. -/
inductive Call where
  | GetConn
  | FreeConn (h : Nat)
deriving DecidableEq, Repr

/-- Why a sequence of client calls stops. -/
inductive Stop where
  | notHeld
  | waiting
  | fault (f : Fault)
deriving DecidableEq, Repr

/-- One client call on the pool and the handles handed out and not yet released (`held`).
A client releases only a handle it holds (`Stop.notHeld` otherwise). -/
def call (st : SqlConnPool × List Nat) : Call → Except Stop (SqlConnPool × List Nat)
  | .GetConn =>
    match st.1.GetConn with
    | none => .error .waiting
    | some (p, none) => .ok (p, st.2)
    | some (p, some h) => .ok (p, h :: st.2)
  | .FreeConn h =>
    if h ∈ st.2 then
      match st.1.FreeConn (some h) with
      | .error f => .error (.fault f)
      | .ok p => .ok (p, st.2.erase h)
    else
      .error .notHeld

/-- A sequence of client calls, one after the other. -/
def calls (st : SqlConnPool × List Nat) : List Call → Except Stop (SqlConnPool × List Nat)
  | [] => .ok st
  | c :: cs =>
    match call st c with
    | .error e => .error e
    | .ok st1 => calls st1 cs

/-- What the accounting rests on: held plus free is `n`, the semaphore counts the free
handles, and no free handle is null. -/
def Balanced (n : Nat) (st : SqlConnPool × List Nat) : Prop :=
  st.2.length + st.1.connQue_.length = n ∧ st.1.semId_ = st.1.connQue_.length ∧
    ∀ x ∈ st.1.connQue_, x ≠ none

end SqlConnPool

/-! ## WebServer (code/server/webserver.cpp)

The reactor (`Epoller`), the timer (`HeapTimer`), the thread pool and `HttpConn` are
collaborators whose code is not among the sources. A function of the server is the list of
calls it makes on them, in order (`Effect`); what a collaborator returns to the server
(`process()`, `write()`, `ToWriteBytes()`, ...) is an argument. -/

/-- The event bit `EPOLLIN` of `<sys/epoll.h>` (Linux). -/
def EPOLLIN : Nat := 0x001

/-- The event bit `EPOLLOUT`. -/
def EPOLLOUT : Nat := 0x004

/-- The event bit `EPOLLERR`. -/
def EPOLLERR : Nat := 0x008

/-- The event bit `EPOLLHUP`. -/
def EPOLLHUP : Nat := 0x010

/-- The event bit `EPOLLRDHUP`. -/
def EPOLLRDHUP : Nat := 0x2000

/-- The event bit `EPOLLONESHOT`, `1 << 30`. -/
def EPOLLONESHOT : Nat := 1073741824

/-- The event bit `EPOLLET`, `1 << 31`. -/
def EPOLLET : Nat := 2147483648

/-- The value of `EAGAIN` in `<errno.h>` (Linux). -/
def EAGAIN : Int := 11

/-- A closure handed to the thread pool by `AddTask`. -/
inductive PoolTask where
  | OnRead_ (fd : Int)
  | OnWrite_ (fd : Int)
deriving DecidableEq, Repr

/-- A call of the server on a collaborator: the log macros (level 0 debug .. 3 error, with the
format string), the reactor, the timer, the connection object of a descriptor, the thread
pool, and the accept path `DealListen_()`. -/
inductive Effect where
  | LOG (level : Nat) (format : String)
  | AddFd (fd : Int) (events : Nat)
  | ModFd (fd : Int) (events : Nat)
  | DelFd (fd : Int)
  | timer_add (id : Int) (timeOut : Int)
  | timer_adjust (id : Int) (newExpires : Int)
  | conn_init (fd : Int)
  | conn_Close (fd : Int)
  | conn_read (fd : Int)
  | conn_write (fd : Int)
  | conn_process (fd : Int)
  | SetFdNonblock (fd : Int)
  | AddTask (t : PoolTask)
  | DealListen_
deriving DecidableEq, Repr

/-- The event mask an effect hands to the reactor, if it is `AddFd` or `ModFd`. -/
def Effect.events : Effect → Option Nat
  | .AddFd _ ev => some ev
  | .ModFd _ ev => some ev
  | _ => none

/-- The members of `WebServer` that the event loop reads: the timeout, the listening
descriptor, the two event masks, the keys of the map `users_`, and the static
`HttpConn::isET`. -/
structure WebServer where
  timeoutMS_ : Int
  listenFd_ : Int
  listenEvent_ : Nat
  connEvent_ : Nat
  users_ : List Int
  isET : Bool
deriving DecidableEq, Repr

namespace WebServer

/-- Method `WebServer::InitEventMode_(trigMode)`. -/
def InitEventMode_ (s : WebServer) (trigMode : Int) : WebServer :=
  let listenEvent := EPOLLRDHUP
  let connEvent := EPOLLONESHOT ||| EPOLLRDHUP
  let r : Nat × Nat :=
    if trigMode = 0 then (listenEvent, connEvent)
    else if trigMode = 1 then (listenEvent, connEvent ||| EPOLLET)
    else if trigMode = 2 then (listenEvent ||| EPOLLET, connEvent)
    else if trigMode = 3 then (listenEvent ||| EPOLLET, connEvent ||| EPOLLET)
    else (listenEvent ||| EPOLLET, connEvent ||| EPOLLET)
  { s with listenEvent_ := r.1, connEvent_ := r.2, isET := decide (r.2 &&& EPOLLET ≠ 0) }

/-- Method `WebServer::CloseConn_(client)`, `client` being `&users_[fd]`. -/
def CloseConn_ (fd : Int) : List Effect :=
  [.LOG 1 "Client[%d] quit!", .DelFd fd, .conn_Close fd]

/-- Method `WebServer::AddClient_(fd, addr)`, with its `assert(fd > 0)`; `users_[fd]` creates
the key when it is new. -/
def AddClient_ (s : WebServer) (fd : Int) : Except Fault (WebServer × List Effect) :=
  if fd > 0 then
    .ok ({ s with users_ := if fd ∈ s.users_ then s.users_ else fd :: s.users_ },
      [.conn_init fd] ++
      (if s.timeoutMS_ > 0 then [.timer_add fd s.timeoutMS_] else []) ++
      [.AddFd fd (EPOLLIN ||| s.connEvent_), .SetFdNonblock fd, .LOG 1 "Client[%d] in!"])
  else
    .error .assertFailed

/-- Method `WebServer::ExtentTime_(client)`. -/
def ExtentTime_ (s : WebServer) (fd : Int) : List Effect :=
  if s.timeoutMS_ > 0 then [.timer_adjust fd s.timeoutMS_] else []

/-- Method `WebServer::DealRead_(client)`. -/
def DealRead_ (s : WebServer) (fd : Int) : List Effect :=
  s.ExtentTime_ fd ++ [.AddTask (.OnRead_ fd)]

/-- Method `WebServer::DealWrite_(client)`. -/
def DealWrite_ (s : WebServer) (fd : Int) : List Effect :=
  s.ExtentTime_ fd ++ [.AddTask (.OnWrite_ fd)]

/-- Method `WebServer::OnProcess(client)`; `processed` is what `client->process()` returns. -/
def OnProcess (s : WebServer) (fd : Int) (processed : Bool) : List Effect :=
  [.conn_process fd] ++
  (if processed then [.ModFd fd (s.connEvent_ ||| EPOLLOUT)]
   else [.ModFd fd (s.connEvent_ ||| EPOLLIN)])

/-- Method `WebServer::OnRead_(client)`; `ret` and `readErrno` are what `client->read` returns
and stores. -/
def OnRead_ (s : WebServer) (fd : Int) (ret readErrno : Int) (processed : Bool) : List Effect :=
  [.conn_read fd] ++
  (if ret ≤ 0 ∧ readErrno ≠ EAGAIN then CloseConn_ fd
   else s.OnProcess fd processed)

/-- Method `WebServer::OnWrite_(client)`; `ret` and `writeErrno` are what `client->write`
returns and stores, `toWriteBytes` and `keepAlive` what `ToWriteBytes()` and `IsKeepAlive()`
return after it. -/
def OnWrite_ (s : WebServer) (fd : Int) (ret writeErrno toWriteBytes : Int) (keepAlive : Bool)
    (processed : Bool) : List Effect :=
  [.conn_write fd] ++
  (if toWriteBytes = 0 then
     (if keepAlive then s.OnProcess fd processed else CloseConn_ fd)
   else if ret < 0 then
     (if writeErrno = EAGAIN then [.ModFd fd (s.connEvent_ ||| EPOLLOUT)] else CloseConn_ fd)
   else CloseConn_ fd)

/-- The body of the event loop of `WebServer::Start` for one ready event `(fd, events)`, with
its `assert(users_.count(fd) > 0)`; the accept loop behind `DealListen_()` is one effect. -/
def StartEvent (s : WebServer) (fd : Int) (events : Nat) : Except Fault (List Effect) :=
  if fd = s.listenFd_ then
    .ok [.DealListen_]
  else if events &&& (EPOLLRDHUP ||| EPOLLHUP ||| EPOLLERR) ≠ 0 then
    if fd ∈ s.users_ then .ok (CloseConn_ fd) else .error .assertFailed
  else if events &&& EPOLLIN ≠ 0 then
    if fd ∈ s.users_ then .ok (s.DealRead_ fd) else .error .assertFailed
  else if events &&& EPOLLOUT ≠ 0 then
    if fd ∈ s.users_ then .ok (s.DealWrite_ fd) else .error .assertFailed
  else
    .ok [.LOG 3 "Unexpected event"]

end WebServer

/-! ## HeapTimer (code/timer/heaptimer.h declares it; its member functions are missing) -/

/-- The struct `TimerNode` without its callback: the descriptor and the expiry time. -/
structure TimerNode where
  id : Int
  expires : Int
deriving DecidableEq, Repr

/-- The class `HeapTimer` as the nodes it holds; the heap order and the index map `ref_` are
not represented. -/
structure HeapTimer where
  heap_ : List TimerNode
deriving DecidableEq, Repr

namespace HeapTimer

/-- Whether the timer holds a node for `id` (`ref_.count(id) > 0`). -/
def contains (t : HeapTimer) (id : Int) : Bool :=
  t.heap_.any (fun n => decide (n.id = id))

/-- Modelled from the spec: the member function `HeapTimer::add` (heaptimer.cpp is missing),
"if id is new, append and sift-up; otherwise update expires and cb for the existing node";
`now` is the clock at the call. -/
def add (t : HeapTimer) (id timeOut now : Int) : HeapTimer :=
  if t.contains id then
    { heap_ := t.heap_.map (fun n => if n.id = id then { n with expires := now + timeOut } else n) }
  else
    { heap_ := t.heap_ ++ [{ id := id, expires := now + timeOut }] }

/-- Modelled from the spec: the member function `HeapTimer::adjust` (heaptimer.cpp is missing),
"update expires to now + newTimeoutMs and sift-down". -/
def adjust (t : HeapTimer) (id newExpires now : Int) : HeapTimer :=
  { heap_ := t.heap_.map (fun n => if n.id = id then { n with expires := now + newExpires } else n) }

/-- The timer after one call of the server: only `timer_->add` and `timer_->adjust` reach
it (the reactor and `HttpConn` hold no reference to the timer). -/
def apply (now : Int) (t : HeapTimer) : Effect → HeapTimer
  | .timer_add id timeOut => t.add id timeOut now
  | .timer_adjust id newExpires => t.adjust id newExpires now
  | _ => t

/-- The timer after a list of calls of the server. -/
def applyAll (now : Int) (t : HeapTimer) (effs : List Effect) : HeapTimer :=
  effs.foldl (apply now) t

end HeapTimer

/-! ## Log::write, the write block (code/log/log.cpp) -/

/-- The bytes of an ASCII string literal. -/
def bytesOf (s : String) : List Byte :=
  s.data.map (fun c => Fin.ofNat c.toNat)

/-- The call `snprintf(base + pos, size, ...)` (or `vsnprintf`) whose full output would be
`out`: it stores at most `size - 1` bytes of `out` and a zero byte (nothing when `size` is 0)
and returns the full length of `out`. -/
def snprintfAt (buf : List Byte) (pos size : Nat) (out : List Byte) :
    Except Fault (List Byte × Nat) :=
  if size = 0 then
    .ok (buf, out.length)
  else
    match copyTo buf pos (out.take (size - 1) ++ [0]) with
    | .error f => .error f
    | .ok buf1 => .ok (buf1, out.length)

namespace Log

/-- Method `Log::AppendLogLevelTitle_(level)` on the buffer `buff_`. -/
def AppendLogLevelTitle_ (b : Buffer) (level : Int) : Except Fault Buffer :=
  if level = 0 then b.Append (bytesOf "[debug]: ")
  else if level = 1 then b.Append (bytesOf "[info] : ")
  else if level = 2 then b.Append (bytesOf "[warn] : ")
  else if level = 3 then b.Append (bytesOf "[error]: ")
  else b.Append (bytesOf "[info] : ")

/-- The write block of `Log::write` on `buff_` up to `buff_.HasWritten(m)`: the time stamp
(`stamp` is the full output of its format), `HasWritten(n)`, the level title, the message
(`msg` is the full output of `format` and its arguments) and `HasWritten(m)`. -/
def formatBody (b : Buffer) (stamp : List Byte) (level : Int) (msg : List Byte) :
    Except Fault Buffer :=
  match snprintfAt b.buffer_ b.writePos_ 128 stamp with
  | .error f => .error f
  | .ok (buf1, n) =>
    let b1 := Buffer.HasWritten { b with buffer_ := buf1 } n
    match AppendLogLevelTitle_ b1 level with
    | .error f => .error f
    | .ok b2 =>
      match snprintfAt b2.buffer_ b2.writePos_ b2.WritableBytes msg with
      | .error f => .error f
      | .ok (buf3, m) => .ok (Buffer.HasWritten { b2 with buffer_ := buf3 } m)

/-- The write block of `Log::write` on `buff_` up to `buff_.Append("\n\0", 2)`. -/
def formatLine (b : Buffer) (stamp : List Byte) (level : Int) (msg : List Byte) :
    Except Fault Buffer :=
  match formatBody b stamp level msg with
  | .error f => .error f
  | .ok b3 => b3.Append [10, 0]

end Log

/-! # Theorems -/

/-! ## Lemmas on size_t arithmetic and on the storage -/

theorem sizeAdd_eq (a b : Nat) (h : a + b < SIZE_MOD) : sizeAdd a b = a + b := by
  unfold sizeAdd; exact Nat.mod_eq_of_lt h

theorem sizeSub_eq (a b : Nat) (hb : b ≤ a) (ha : a < SIZE_MOD) : sizeSub a b = a - b := by
  unfold sizeSub SIZE_MOD at *; omega

theorem sizeAdd_lt (a b : Nat) : sizeAdd a b < SIZE_MOD := by
  unfold sizeAdd SIZE_MOD; omega

theorem sizeSub_lt (a b : Nat) : sizeSub a b < SIZE_MOD := by
  unfold sizeSub SIZE_MOD; omega

theorem byteRange_length (buf : List Byte) (r w : Nat) (h : w ≤ buf.length) :
    (byteRange buf r w).length = w - r := by
  unfold byteRange; simp; omega

theorem copyTo_ok (buf : List Byte) (pos : Nat) (src : List Byte) (h : pos + src.length ≤ buf.length) :
    copyTo buf pos src = .ok (buf.take pos ++ src ++ buf.drop (pos + src.length)) := by
  unfold copyTo; rw [if_pos h]

namespace Buffer

theorem ReadableBytes_eq (b : Buffer) (hinv : b.Inv) (hcap : b.buffer_.length < SIZE_MOD) :
    b.ReadableBytes = b.writePos_ - b.readPos_ := by
  obtain ⟨h1, h2⟩ := hinv
  exact sizeSub_eq _ _ h1 (by omega)

theorem WritableBytes_eq (b : Buffer) (hinv : b.Inv) (hcap : b.buffer_.length < SIZE_MOD) :
    b.WritableBytes = b.buffer_.length - b.writePos_ := by
  obtain ⟨h1, h2⟩ := hinv
  exact sizeSub_eq _ _ h2 hcap

theorem readable_eq (b : Buffer) (hinv : b.Inv) (hcap : b.buffer_.length < SIZE_MOD) :
    b.readable = byteRange b.buffer_ b.readPos_ b.writePos_ := by
  unfold readable byteRange; rw [ReadableBytes_eq b hinv hcap]

theorem readable_length (b : Buffer) (hinv : b.Inv) (hcap : b.buffer_.length < SIZE_MOD) :
    b.readable.length = b.writePos_ - b.readPos_ := by
  rw [readable_eq b hinv hcap]; exact byteRange_length _ _ _ hinv.2

end Buffer

namespace Buffer

/-- No reallocation and no move when the writable area already has room. -/
theorem EnsureWriteable_room (b : Buffer) (n : Nat) (hinv : b.Inv)
    (hcap : b.buffer_.length < SIZE_MOD) (h : n ≤ b.buffer_.length - b.writePos_) :
    b.EnsureWriteable n = .ok b := by
  have hw := WritableBytes_eq b hinv hcap
  unfold EnsureWriteable
  rw [if_neg (by omega)]
  simp only [ge_iff_le]
  rw [if_pos (by omega)]

/-- Compaction: the unread bytes move to the front, the capacity stays. -/
theorem EnsureWriteable_compact (b : Buffer) (n : Nat) (hinv : b.Inv)
    (hcap : b.buffer_.length < SIZE_MOD) (h1 : b.buffer_.length - b.writePos_ < n)
    (h2 : n ≤ b.buffer_.length - b.writePos_ + b.readPos_) :
    b.EnsureWriteable n = .ok
      { buffer_ := byteRange b.buffer_ b.readPos_ b.writePos_ ++
          b.buffer_.drop (b.writePos_ - b.readPos_),
        readPos_ := 0, writePos_ := b.writePos_ - b.readPos_ } := by
  have hw := WritableBytes_eq b hinv hcap
  have hr := ReadableBytes_eq b hinv hcap
  obtain ⟨i1, i2⟩ := hinv
  have hlen := byteRange_length b.buffer_ b.readPos_ b.writePos_ i2
  have hcopy := copyTo_ok b.buffer_ 0 (byteRange b.buffer_ b.readPos_ b.writePos_) (by omega)
  have hsum : sizeAdd b.WritableBytes b.PrependableBytes
      = b.buffer_.length - b.writePos_ + b.readPos_ := by
    rw [hw]; unfold PrependableBytes; exact sizeAdd_eq _ _ (by omega)
  have h0 : sizeAdd 0 (b.writePos_ - b.readPos_) = b.writePos_ - b.readPos_ := by
    rw [sizeAdd_eq _ _ (by omega)]; omega
  unfold EnsureWriteable
  rw [if_pos (by omega)]
  unfold MakeSpace_
  rw [if_neg (by omega)]
  simp only [hcopy, hr, h0, hlen, List.take_zero, List.nil_append, Nat.zero_add]
  have hr1 : ReadableBytes
      ⟨byteRange b.buffer_ b.readPos_ b.writePos_ ++ b.buffer_.drop (b.writePos_ - b.readPos_),
        0, b.writePos_ - b.readPos_⟩ = b.writePos_ - b.readPos_ := by
    unfold ReadableBytes; simp only; rw [sizeSub_eq _ _ (by omega) (by omega)]; omega
  have hw1 : WritableBytes
      ⟨byteRange b.buffer_ b.readPos_ b.writePos_ ++ b.buffer_.drop (b.writePos_ - b.readPos_),
        0, b.writePos_ - b.readPos_⟩ = b.buffer_.length - (b.writePos_ - b.readPos_) := by
    unfold WritableBytes; simp only [List.length_append, hlen, List.length_drop]
    rw [sizeSub_eq _ _ (by omega) (by omega)]; omega
  rw [if_pos hr1.symm]
  simp only [ge_iff_le, hw1]
  rw [if_pos (by omega)]

/-- Growth: the storage is resized to `writePos_ + n + 1`, nothing moves. -/
theorem EnsureWriteable_grow (b : Buffer) (n : Nat) (hinv : b.Inv)
    (hcap : b.buffer_.length < SIZE_MOD) (h2 : b.buffer_.length - b.writePos_ + b.readPos_ < n)
    (hmax : b.writePos_ + n + 1 ≤ PTRDIFF_MAX) :
    b.EnsureWriteable n = .ok
      { b with buffer_ := b.buffer_ ++ List.replicate (b.writePos_ + n + 1 - b.buffer_.length) 0 } := by
  have hw := WritableBytes_eq b hinv hcap
  obtain ⟨i1, i2⟩ := hinv
  have hfit : b.writePos_ + n + 1 < SIZE_MOD := by
    unfold PTRDIFF_MAX at hmax; unfold SIZE_MOD; omega
  have hsum : sizeAdd b.WritableBytes b.PrependableBytes
      = b.buffer_.length - b.writePos_ + b.readPos_ := by
    rw [hw]; unfold PrependableBytes; exact sizeAdd_eq _ _ (by omega)
  have hk : sizeAdd (sizeAdd b.writePos_ n) 1 = b.writePos_ + n + 1 := by
    rw [sizeAdd_eq b.writePos_ n (by omega), sizeAdd_eq _ _ hfit]
  have hres : vecResize b.buffer_ (b.writePos_ + n + 1)
      = .ok (b.buffer_ ++ List.replicate (b.writePos_ + n + 1 - b.buffer_.length) 0) := by
    unfold vecResize
    rw [if_neg (by omega), List.take_of_length_le (by omega)]
  unfold EnsureWriteable
  rw [if_pos (by omega)]
  unfold MakeSpace_
  rw [if_pos (by omega)]
  simp only [hk, hres, ge_iff_le]
  have hw1 : WritableBytes
      ⟨b.buffer_ ++ List.replicate (b.writePos_ + n + 1 - b.buffer_.length) 0,
        b.readPos_, b.writePos_⟩ = n + 1 := by
    unfold WritableBytes; simp only [List.length_append, List.length_replicate]
    rw [sizeSub_eq _ _ (by omega) (by omega)]; omega
  rw [if_pos (by omega)]

end Buffer

namespace Buffer

/-- Summary of `EnsureWriteable` on a buffer that satisfies the invariant. -/
theorem EnsureWriteable_spec (b : Buffer) (n : Nat) (hinv : b.Inv)
    (hcap : b.buffer_.length < SIZE_MOD)
    (hfit : n ≤ b.buffer_.length - b.writePos_ + b.readPos_ ∨
      b.writePos_ + n + 1 ≤ PTRDIFF_MAX) :
    ∃ b1, b.EnsureWriteable n = .ok b1 ∧ b1.Inv ∧ b1.buffer_.length < SIZE_MOD ∧
      b1.readable = b.readable ∧ b1.writePos_ + n ≤ b1.buffer_.length ∧
      b1.buffer_.length = (if n ≤ b.buffer_.length - b.writePos_ + b.readPos_
        then b.buffer_.length else b.writePos_ + n + 1) := by
  have hinv0 := hinv
  obtain ⟨i1, i2⟩ := hinv
  by_cases hA : n ≤ b.buffer_.length - b.writePos_
  · refine ⟨b, EnsureWriteable_room b n hinv0 hcap hA, hinv0, hcap, rfl, by omega, ?_⟩
    rw [if_pos (by omega)]
  · by_cases hB : n ≤ b.buffer_.length - b.writePos_ + b.readPos_
    · have hlen := byteRange_length b.buffer_ b.readPos_ b.writePos_ i2
      refine ⟨_, EnsureWriteable_compact b n hinv0 hcap (by omega) hB, ?_, ?_, ?_, ?_, ?_⟩
      · constructor
        · simp
        · simp only [List.length_append, hlen, List.length_drop]; omega
      · simp only [List.length_append, hlen, List.length_drop]; omega
      · rw [readable_eq b hinv0 hcap]
        unfold readable ReadableBytes
        simp only [List.drop_zero]
        rw [sizeSub_eq _ _ (by omega) (by omega), Nat.sub_zero]
        rw [List.take_append_of_le_length (by omega), List.take_of_length_le (by omega)]
      · simp only [List.length_append, hlen, List.length_drop]; omega
      · simp only [List.length_append, hlen, List.length_drop]
        rw [if_pos hB]; omega
    · have hmax : b.writePos_ + n + 1 ≤ PTRDIFF_MAX := by
        rcases hfit with h | h
        · exact absurd h hB
        · exact h
      have hf : b.writePos_ + n + 1 < SIZE_MOD := by
        unfold PTRDIFF_MAX at hmax; unfold SIZE_MOD; omega
      refine ⟨_, EnsureWriteable_grow b n hinv0 hcap (by omega) hmax, ?_, ?_, ?_, ?_, ?_⟩
      · constructor
        · exact i1
        · simp only [List.length_append, List.length_replicate]; omega
      · simp only [List.length_append, List.length_replicate]; omega
      · unfold readable ReadableBytes
        simp only
        rw [sizeSub_eq _ _ i1 (by omega)]
        rw [List.drop_append_of_le_length (by omega),
          List.take_append_of_le_length (by simp only [List.length_drop]; omega)]
      · simp only [List.length_append, List.length_replicate]; omega
      · simp only [List.length_append, List.length_replicate]
        rw [if_neg hB]; omega

/-- Summary of `Append` on a buffer that satisfies the invariant. -/
theorem Append_spec (b : Buffer) (s : List Byte) (hinv : b.Inv)
    (hcap : b.buffer_.length < SIZE_MOD)
    (hfit : s.length ≤ b.buffer_.length - b.writePos_ + b.readPos_ ∨
      b.writePos_ + s.length + 1 ≤ PTRDIFF_MAX) :
    ∃ b1, b.Append s = .ok b1 ∧ b1.Inv ∧ b1.buffer_.length < SIZE_MOD ∧
      b1.readable = b.readable ++ s := by
  obtain ⟨b0, he, hinv0, hcap0, hread0, hroom0, -⟩ := EnsureWriteable_spec b s.length hinv hcap hfit
  have hcopy := copyTo_ok b0.buffer_ b0.writePos_ s hroom0
  obtain ⟨j1, j2⟩ := hinv0
  have hw : sizeAdd b0.writePos_ s.length = b0.writePos_ + s.length :=
    sizeAdd_eq _ _ (by omega)
  refine ⟨⟨b0.buffer_.take b0.writePos_ ++ s ++ b0.buffer_.drop (b0.writePos_ + s.length),
    b0.readPos_, b0.writePos_ + s.length⟩, ?_, ?_, ?_, ?_⟩
  · unfold Append
    simp only [he, hcopy, HasWritten, hw]
  · constructor
    · simp only; omega
    · simp only [List.length_append, List.length_take, List.length_drop]; omega
  · simp only [List.length_append, List.length_take, List.length_drop]; omega
  · rw [← hread0]
    unfold readable ReadableBytes
    simp only
    rw [sizeSub_eq _ _ (by omega) (by omega), sizeSub_eq _ _ j1 (by omega)]
    have ht : (b0.buffer_.take b0.writePos_).length = b0.writePos_ := by
      simp only [List.length_take]; omega
    rw [List.append_assoc, List.drop_append_of_le_length (by omega)]
    rw [← List.append_assoc, List.take_append_of_le_length
      (by simp only [List.length_append, List.length_drop, ht]; omega)]
    rw [List.take_of_length_le (by simp only [List.length_append, List.length_drop, ht]; omega)]
    congr 1
    rw [List.drop_take]

end Buffer

/-! ## C1 and C3 -/

theorem Buffer.readable_nil_of_empty (b : Buffer) (h : b.readPos_ = b.writePos_) :
    b.readable = [] := by
  unfold Buffer.readable Buffer.ReadableBytes sizeSub
  rw [h]
  have : (b.writePos_ % SIZE_MOD + (SIZE_MOD - b.writePos_ % SIZE_MOD)) % SIZE_MOD = 0 := by
    unfold SIZE_MOD; omega
  rw [this, List.take_zero]

/-- C1: on a buffer with `readPos_ ≤ writePos_ ≤ capacity` whose readable bytes are `r`,
`Append(s, len)` returns (no assertion fails, no copy leaves the storage) and a following
`RetrieveAllToStr` returns exactly `r ++ s` (exactly `s` when the buffer was empty) and leaves
`readPos_ = writePos_ = 0`. The storage is an object in memory, so it is not longer than
`PTRDIFF_MAX`, and the bytes written so far and `s`, held in memory at the same time, are
together fewer than `PTRDIFF_MAX` bytes (so the `resize` of a growth stays within
`max_size()`). -/
theorem Buffer.append_then_retrieveAllToStr (b : Buffer) (s : List Byte) (hinv : b.Inv)
    (hcap : b.buffer_.length ≤ PTRDIFF_MAX) (hlive : b.writePos_ + s.length < PTRDIFF_MAX) :
    ∃ b1, b.Append s = .ok b1 ∧
      b1.RetrieveAllToStr.2 = b.readable ++ s ∧
      (b.readPos_ = b.writePos_ → b1.RetrieveAllToStr.2 = s) ∧
      b1.RetrieveAllToStr.1.readPos_ = 0 ∧ b1.RetrieveAllToStr.1.writePos_ = 0 := by
  have hcap1 : b.buffer_.length < SIZE_MOD := by unfold PTRDIFF_MAX at hcap; unfold SIZE_MOD; omega
  obtain ⟨b1, h1, -, -, h4⟩ := Buffer.Append_spec b s hinv hcap1 (Or.inr (by omega))
  refine ⟨b1, h1, h4, ?_, rfl, rfl⟩
  intro he
  show b1.readable = s
  rw [h4, Buffer.readable_nil_of_empty b he, List.nil_append]

/-- Witness of C1: a 4-byte buffer holding one unread byte, appended with four bytes (one of
them zero, one above 127), which forces growth. -/
theorem Buffer.append_then_retrieveAllToStr_witness :
    (⟨[9, 7, 0, 0], 1, 2⟩ : Buffer).Inv ∧
    ∃ b1, (⟨[9, 7, 0, 0], 1, 2⟩ : Buffer).Append [0, 255, 1, 2] = .ok b1 ∧
      b1.RetrieveAllToStr.2 = (⟨[9, 7, 0, 0], 1, 2⟩ : Buffer).readable ++ [0, 255, 1, 2] ∧
      ((⟨[9, 7, 0, 0], 1, 2⟩ : Buffer).readPos_ = (⟨[9, 7, 0, 0], 1, 2⟩ : Buffer).writePos_ →
        b1.RetrieveAllToStr.2 = [0, 255, 1, 2]) ∧
      b1.RetrieveAllToStr.1.readPos_ = 0 ∧ b1.RetrieveAllToStr.1.writePos_ = 0 :=
  ⟨by decide, Buffer.append_then_retrieveAllToStr ⟨[9, 7, 0, 0], 1, 2⟩ [0, 255, 1, 2]
    (by decide) (by decide) (by decide)⟩

/-- C3 (as amended): on a buffer with `readPos_ ≤ writePos_ ≤ capacity`, for every `n` that
either fits into `WritableBytes + PrependableBytes` or has `writePos_ + n + 1 ≤ PTRDIFF_MAX`
(the `max_size()` of the storage), `EnsureWriteable(n)` returns (`resize` does not throw and
the final assert holds), leaves the capacity unchanged when
`WritableBytes + PrependableBytes ≥ n` and otherwise sets it to exactly `writePos_ + n + 1`,
keeps the readable byte sequence, and ends with `WritableBytes ≥ n`. -/
theorem Buffer.EnsureWriteable_capacity (b : Buffer) (n : Nat) (hinv : b.Inv)
    (hcap : b.buffer_.length < SIZE_MOD)
    (hfit : n ≤ b.WritableBytes + b.PrependableBytes ∨ b.writePos_ + n + 1 ≤ PTRDIFF_MAX) :
    ∃ b1, b.EnsureWriteable n = .ok b1 ∧
      b1.capacity = (if n ≤ b.WritableBytes + b.PrependableBytes then b.capacity
        else b.writePos_ + n + 1) ∧
      b1.readable = b.readable ∧ n ≤ b1.WritableBytes := by
  have hw := Buffer.WritableBytes_eq b hinv hcap
  have hfit1 : n ≤ b.buffer_.length - b.writePos_ + b.readPos_ ∨
      b.writePos_ + n + 1 ≤ PTRDIFF_MAX := by
    rw [hw] at hfit
    unfold Buffer.PrependableBytes at hfit
    exact hfit
  obtain ⟨b1, h1, h2, h3, h4, h5, h6⟩ := Buffer.EnsureWriteable_spec b n hinv hcap hfit1
  refine ⟨b1, h1, ?_, h4, ?_⟩
  · unfold Buffer.capacity
    rw [h6, hw]
    rfl
  · rw [Buffer.WritableBytes_eq b1 h2 h3]
    omega

/-- Witness of C3: four bytes of storage, one read and three written, asked for five more:
the storage grows to `3 + 5 + 1` bytes. -/
theorem Buffer.EnsureWriteable_capacity_witness :
    (⟨[1, 2, 3, 4], 1, 3⟩ : Buffer).Inv ∧
    ∃ b1, (⟨[1, 2, 3, 4], 1, 3⟩ : Buffer).EnsureWriteable 5 = .ok b1 ∧
      b1.capacity = (if 5 ≤ (⟨[1, 2, 3, 4], 1, 3⟩ : Buffer).WritableBytes +
          (⟨[1, 2, 3, 4], 1, 3⟩ : Buffer).PrependableBytes
        then (⟨[1, 2, 3, 4], 1, 3⟩ : Buffer).capacity
        else (⟨[1, 2, 3, 4], 1, 3⟩ : Buffer).writePos_ + 5 + 1) ∧
      b1.readable = (⟨[1, 2, 3, 4], 1, 3⟩ : Buffer).readable ∧ 5 ≤ b1.WritableBytes :=
  ⟨by decide, Buffer.EnsureWriteable_capacity ⟨[1, 2, 3, 4], 1, 3⟩ 5
    (by decide) (by decide) (by decide)⟩

/-- Counterexample to C3 as stated: on the 4-byte empty buffer, `EnsureWriteable(PTRDIFF_MAX)`
has `WritableBytes + PrependableBytes < n` and asks `resize` for `PTRDIFF_MAX + 1` bytes, which
throws `std::length_error`; `EnsureWriteable(SIZE_MAX)` computes `writePos_ + n + 1` as `0`
in `size_t`, resizes the storage to `0` bytes and then fails its final assert; and on an
8-byte buffer with five written bytes `EnsureWriteable(SIZE_MAX - 1)` returns with capacity
`4`, which is not `writePos_ + n + 1`. -/
theorem Buffer.EnsureWriteable_capacity_counterexample :
    (Buffer.init 4).Inv ∧
    ¬ (PTRDIFF_MAX ≤ (Buffer.init 4).WritableBytes + (Buffer.init 4).PrependableBytes) ∧
    (Buffer.init 4).EnsureWriteable PTRDIFF_MAX = .error .lengthError ∧
    ¬ (SIZE_MAX ≤ (Buffer.init 4).WritableBytes + (Buffer.init 4).PrependableBytes) ∧
    (Buffer.init 4).EnsureWriteable SIZE_MAX = .error .assertFailed ∧
    (⟨[0, 0, 0, 0, 0, 0, 0, 0], 0, 5⟩ : Buffer).Inv ∧
    (⟨[0, 0, 0, 0, 0, 0, 0, 0], 0, 5⟩ : Buffer).EnsureWriteable (SIZE_MAX - 1)
      = .ok ⟨[0, 0, 0, 0], 0, 5⟩ ∧
    (⟨[0, 0, 0, 0], 0, 5⟩ : Buffer).capacity ≠ 5 + (SIZE_MAX - 1) + 1 := by
  decide

/-! ## C2 -/

theorem Buffer.Retrieve_inv (b : Buffer) (len : Nat) (hinv : b.Inv)
    (hcap : b.buffer_.length < SIZE_MOD) (hlen : len ≤ b.ReadableBytes) :
    ∃ b1, b.Retrieve len = .ok b1 ∧ b1.Inv ∧ b1.readPos_ = b.readPos_ + len ∧
      b1.writePos_ = b.writePos_ ∧ b1.buffer_ = b.buffer_ := by
  have hr := Buffer.ReadableBytes_eq b hinv hcap
  obtain ⟨i1, i2⟩ := hinv
  have ha : sizeAdd b.readPos_ len = b.readPos_ + len := sizeAdd_eq _ _ (by omega)
  refine ⟨{ b with readPos_ := b.readPos_ + len }, ?_, ?_, rfl, rfl, rfl⟩
  · unfold Buffer.Retrieve
    rw [if_pos hlen, ha]
  · constructor
    · simp only; omega
    · exact i2

theorem Buffer.RetrieveUntil_inv (b : Buffer) (e : Nat) (hinv : b.Inv)
    (hcap : b.buffer_.length < SIZE_MOD) (h1 : b.readPos_ ≤ e) (h2 : e ≤ b.writePos_) :
    ∃ b1, b.RetrieveUntil e = .ok b1 ∧ b1.Inv ∧ b1.readPos_ = e ∧
      b1.writePos_ = b.writePos_ ∧ b1.buffer_ = b.buffer_ := by
  have hr := Buffer.ReadableBytes_eq b hinv hcap
  have hs : sizeSub e b.readPos_ = e - b.readPos_ := sizeSub_eq _ _ h1 (by have := hinv.2; omega)
  obtain ⟨b1, g1, g2, g3, g4, g5⟩ := Buffer.Retrieve_inv b (e - b.readPos_) hinv hcap (by omega)
  refine ⟨b1, ?_, g2, by omega, g4, g5⟩
  unfold Buffer.RetrieveUntil
  rw [if_pos h1, hs, g1]

theorem Buffer.HasWritten_inv (b : Buffer) (len : Nat) (hinv : b.Inv)
    (hcap : b.buffer_.length < SIZE_MOD) (hlen : len ≤ b.WritableBytes) :
    (b.HasWritten len).Inv ∧ (b.HasWritten len).writePos_ = b.writePos_ + len := by
  have hw := Buffer.WritableBytes_eq b hinv hcap
  obtain ⟨i1, i2⟩ := hinv
  have ha : sizeAdd b.writePos_ len = b.writePos_ + len := sizeAdd_eq _ _ (by omega)
  have hb : b.HasWritten len = { b with writePos_ := b.writePos_ + len } := by
    unfold Buffer.HasWritten; rw [ha]
  rw [hb]
  refine ⟨⟨?_, ?_⟩, rfl⟩
  · show b.readPos_ ≤ b.writePos_ + len
    omega
  · show b.writePos_ + len ≤ b.buffer_.length
    omega

theorem Buffer.fit_of_ptrdiff (b : Buffer) (n : Nat) (hinv : b.Inv)
    (hcap : b.buffer_.length ≤ PTRDIFF_MAX) (hn : n ≤ PTRDIFF_MAX) :
    b.buffer_.length < SIZE_MOD ∧ b.writePos_ + n + 1 < SIZE_MOD := by
  have := hinv.2
  unfold PTRDIFF_MAX at hcap hn
  unfold SIZE_MOD
  omega

theorem Buffer.readable_length_le (b : Buffer) : b.readable.length ≤ b.buffer_.length := by
  unfold Buffer.readable
  simp only [List.length_take, List.length_drop]
  omega

/-- Appending another buffer that satisfies the invariant is appending its readable bytes. -/
theorem Buffer.AppendBuffer_other (b o : Buffer) (ho : o.Inv)
    (hocap : o.buffer_.length < SIZE_MOD) :
    b.AppendBuffer (.other o) = b.Append o.readable := by
  have hr := Buffer.ReadableBytes_eq o ho hocap
  have hl : o.readable.length = o.ReadableBytes := by
    rw [Buffer.readable_length o ho hocap, hr]
  have hrange : byteRange o.buffer_ o.readPos_ (o.readPos_ + o.ReadableBytes) = o.readable := by
    unfold byteRange Buffer.readable
    rw [Nat.add_sub_cancel_left]
  have hin : o.readPos_ + o.ReadableBytes ≤ o.buffer_.length := by
    have i1 := ho.1
    have i2 := ho.2
    omega
  unfold Buffer.AppendBuffer Buffer.Append
  simp only [hl, hrange, if_pos hin]

/-- Appending a buffer to itself when its readable bytes fit without a `resize`: the call
returns and the invariant holds. -/
theorem Buffer.AppendBuffer_self_inv (b : Buffer) (hinv : b.Inv)
    (hcap : b.buffer_.length < SIZE_MOD)
    (hfit : b.ReadableBytes ≤ b.WritableBytes + b.PrependableBytes) :
    ∃ b1, b.AppendBuffer .self = .ok b1 ∧ b1.Inv := by
  have hw := Buffer.WritableBytes_eq b hinv hcap
  have hr := Buffer.ReadableBytes_eq b hinv hcap
  have i1 := hinv.1
  have i2 := hinv.2
  have hfit1 : b.ReadableBytes ≤ b.buffer_.length - b.writePos_ + b.readPos_ := by
    rw [hw] at hfit
    exact hfit
  obtain ⟨b0, he, hinv0, hcap0, -, hroom0, hlen0⟩ :=
    Buffer.EnsureWriteable_spec b b.ReadableBytes hinv hcap (Or.inl hfit1)
  rw [if_pos hfit1] at hlen0
  have hres : decide (b.WritableBytes < b.ReadableBytes ∧
      sizeAdd b.WritableBytes b.PrependableBytes < b.ReadableBytes) = false := by
    apply decide_eq_false
    intro h
    have hsum : sizeAdd b.WritableBytes b.PrependableBytes
        = b.buffer_.length - b.writePos_ + b.readPos_ := by
      rw [hw]; unfold Buffer.PrependableBytes; exact sizeAdd_eq _ _ (by omega)
    rw [hsum] at h
    omega
  have hin : b.readPos_ + b.ReadableBytes ≤ b0.buffer_.length := by
    rw [hlen0]; omega
  have hsl : (byteRange b0.buffer_ b.readPos_ (b.readPos_ + b.ReadableBytes)).length
      = b.ReadableBytes := by
    rw [byteRange_length _ _ _ hin]; omega
  have hcopy := copyTo_ok b0.buffer_ b0.writePos_
    (byteRange b0.buffer_ b.readPos_ (b.readPos_ + b.ReadableBytes)) (by rw [hsl]; exact hroom0)
  have j1 := hinv0.1
  have ha : sizeAdd b0.writePos_ b.ReadableBytes = b0.writePos_ + b.ReadableBytes :=
    sizeAdd_eq _ _ (by omega)
  refine ⟨⟨b0.buffer_.take b0.writePos_ ++
      byteRange b0.buffer_ b.readPos_ (b.readPos_ + b.ReadableBytes) ++
      b0.buffer_.drop (b0.writePos_ +
        (byteRange b0.buffer_ b.readPos_ (b.readPos_ + b.ReadableBytes)).length),
    b0.readPos_, b0.writePos_ + b.ReadableBytes⟩, ?_, ?_, ?_⟩
  · unfold Buffer.AppendBuffer
    simp only [he, hres, Bool.false_eq_true, if_false, if_pos hin, hcopy, Buffer.HasWritten, ha]
  · show b0.readPos_ ≤ b0.writePos_ + b.ReadableBytes
    omega
  · show b0.writePos_ + b.ReadableBytes ≤ _
    simp only [List.length_append, List.length_take, List.length_drop, hsl]
    omega

/-- C2 (as amended): every mutating operation keeps `readPos_ ≤ writePos_ ≤ capacity`, each
within the bound under which the code returns: `Retrieve(len)` with `len ≤ ReadableBytes`,
`RetrieveUntil(end)` with `end` between the cursors (and whenever it returns at all),
`RetrieveAll`, `RetrieveAllToStr`, `HasWritten(len)` with `len ≤ WritableBytes`,
`EnsureWriteable(len)` with `len ≤ WritableBytes + PrependableBytes` or
`writePos_ + len + 1 ≤ PTRDIFF_MAX`, each `Append` overload on bytes in memory of their own
or on another buffer that satisfies the invariant, within the same bound on their number,
and `Append` of the buffer to itself when its readable bytes fit without growth. The
operations return under these bounds. -/
theorem Buffer.operations_preserve_invariant (b : Buffer) (hinv : b.Inv)
    (hcap : b.buffer_.length ≤ PTRDIFF_MAX) :
    (∀ len, len ≤ b.ReadableBytes → ∃ b1, b.Retrieve len = .ok b1 ∧ b1.Inv) ∧
    (∀ e, b.readPos_ ≤ e → e ≤ b.writePos_ → ∃ b1, b.RetrieveUntil e = .ok b1 ∧ b1.Inv) ∧
    (∀ e b1, e < SIZE_MOD → b.RetrieveUntil e = .ok b1 → b1.Inv) ∧
    b.RetrieveAll.Inv ∧
    b.RetrieveAllToStr.1.Inv ∧
    (∀ len, len ≤ b.WritableBytes → (b.HasWritten len).Inv) ∧
    (∀ len, len ≤ b.WritableBytes + b.PrependableBytes ∨ b.writePos_ + len + 1 ≤ PTRDIFF_MAX →
      ∃ b1, b.EnsureWriteable len = .ok b1 ∧ b1.Inv) ∧
    (∀ s : List Byte, s.length ≤ b.WritableBytes + b.PrependableBytes ∨
        b.writePos_ + s.length + 1 ≤ PTRDIFF_MAX →
      ∃ b1, b.Append s = .ok b1 ∧ b1.Inv) ∧
    (∀ s : List Byte, s.length ≤ b.WritableBytes + b.PrependableBytes ∨
        b.writePos_ + s.length + 1 ≤ PTRDIFF_MAX →
      ∃ b1, b.AppendString s = .ok b1 ∧ b1.Inv) ∧
    (∀ s : List Byte, s.length ≤ b.WritableBytes + b.PrependableBytes ∨
        b.writePos_ + s.length + 1 ≤ PTRDIFF_MAX →
      ∃ b1, b.AppendData s = .ok b1 ∧ b1.Inv) ∧
    (∀ o : Buffer, o.Inv → o.buffer_.length ≤ PTRDIFF_MAX →
      (o.ReadableBytes ≤ b.WritableBytes + b.PrependableBytes ∨
        b.writePos_ + o.ReadableBytes + 1 ≤ PTRDIFF_MAX) →
      ∃ b1, b.AppendBuffer (.other o) = .ok b1 ∧ b1.Inv) ∧
    (b.ReadableBytes ≤ b.WritableBytes + b.PrependableBytes →
      ∃ b1, b.AppendBuffer .self = .ok b1 ∧ b1.Inv) := by
  have hcap1 : b.buffer_.length < SIZE_MOD := (Buffer.fit_of_ptrdiff b 0 hinv hcap (by decide)).1
  have hw := Buffer.WritableBytes_eq b hinv hcap1
  have hr := Buffer.ReadableBytes_eq b hinv hcap1
  have hbound : ∀ n, n ≤ b.WritableBytes + b.PrependableBytes ∨
      b.writePos_ + n + 1 ≤ PTRDIFF_MAX →
      n ≤ b.buffer_.length - b.writePos_ + b.readPos_ ∨ b.writePos_ + n + 1 ≤ PTRDIFF_MAX := by
    intro n h
    rw [hw] at h
    unfold Buffer.PrependableBytes at h
    exact h
  have happ : ∀ s : List Byte, s.length ≤ b.WritableBytes + b.PrependableBytes ∨
      b.writePos_ + s.length + 1 ≤ PTRDIFF_MAX → ∃ b1, b.Append s = .ok b1 ∧ b1.Inv := by
    intro s hs
    obtain ⟨b1, h1, h2, -, -⟩ := Buffer.Append_spec b s hinv hcap1 (hbound s.length hs)
    exact ⟨b1, h1, h2⟩
  have huntil : ∀ e, b.readPos_ ≤ e → e ≤ b.writePos_ →
      ∃ b1, b.RetrieveUntil e = .ok b1 ∧ b1.Inv := by
    intro e h1 h2
    obtain ⟨b1, g1, g2, -⟩ := Buffer.RetrieveUntil_inv b e hinv hcap1 h1 h2
    exact ⟨b1, g1, g2⟩
  refine ⟨?_, huntil, ?_, ?_, ?_, ?_, ?_, happ, happ, happ, ?_, ?_⟩
  · intro len hlen
    obtain ⟨b1, g1, g2, -⟩ := Buffer.Retrieve_inv b len hinv hcap1 hlen
    exact ⟨b1, g1, g2⟩
  · intro e b1 he hok
    by_cases h1 : b.readPos_ ≤ e
    · have hs : sizeSub e b.readPos_ = e - b.readPos_ := sizeSub_eq _ _ h1 he
      by_cases h2 : e ≤ b.writePos_
      · obtain ⟨b2, g1, g2⟩ := huntil e h1 h2
        rw [g1] at hok
        cases hok
        exact g2
      · have hn : ¬ (e - b.readPos_ ≤ b.ReadableBytes) := by
          have i1 := hinv.1
          omega
        unfold Buffer.RetrieveUntil Buffer.Retrieve at hok
        rw [if_pos h1, hs, if_neg hn] at hok
        cases hok
    · unfold Buffer.RetrieveUntil at hok
      rw [if_neg h1] at hok
      cases hok
  · exact ⟨Nat.le_refl 0, Nat.zero_le _⟩
  · exact ⟨Nat.le_refl 0, Nat.zero_le _⟩
  · intro len hlen
    exact (Buffer.HasWritten_inv b len hinv hcap1 hlen).1
  · intro len hfit
    obtain ⟨b1, h1, h2, -⟩ := Buffer.EnsureWriteable_spec b len hinv hcap1 (hbound len hfit)
    exact ⟨b1, h1, h2⟩
  · intro o ho hocap hfit
    have hocap1 : o.buffer_.length < SIZE_MOD := by
      unfold PTRDIFF_MAX at hocap; unfold SIZE_MOD; omega
    have hl : o.readable.length = o.ReadableBytes := by
      rw [Buffer.readable_length o ho hocap1, Buffer.ReadableBytes_eq o ho hocap1]
    rw [Buffer.AppendBuffer_other b o ho hocap1]
    exact happ o.readable (by rw [hl]; exact hfit)
  · intro hfit
    exact Buffer.AppendBuffer_self_inv b hinv hcap1 hfit

/-- Witness of C2: a 4-byte buffer with one byte read and two written; appending three bytes
compacts it and the invariant still holds; and a 4-byte buffer holding the unread bytes 11, 12
at positions 1..2, appended to itself, is compacted and then reads 12, 12 through the pointer
taken before: its readable bytes are 11, 12, 12, 12. -/
theorem Buffer.operations_preserve_invariant_witness :
    (⟨[5, 6, 0, 0], 1, 2⟩ : Buffer).Inv ∧
    (∃ b1, (⟨[5, 6, 0, 0], 1, 2⟩ : Buffer).Append [7, 8, 9] = .ok b1 ∧ b1.Inv) ∧
    (⟨[10, 11, 12, 0], 1, 3⟩ : Buffer).AppendBuffer .self = .ok ⟨[11, 12, 12, 12], 0, 4⟩ :=
  ⟨by decide, (Buffer.operations_preserve_invariant ⟨[5, 6, 0, 0], 1, 2⟩
    (by decide) (by decide)).2.2.2.2.2.2.2.1 [7, 8, 9] (by decide), by decide⟩

/-- Counterexample to C2 as stated: `HasWritten(5)` on the empty 4-byte buffer leaves
`writePos_ = 5 > 4 = capacity`; and `EnsureWriteable(SIZE_MAX - 1)` on an 8-byte buffer with
five written bytes returns (its assert passes on a wrapped `WritableBytes`) with capacity `4`
below `writePos_ = 5`. Two further calls leave no state to speak of:
`EnsureWriteable(PTRDIFF_MAX)` on the 4-byte buffer throws `std::length_error`, and a 3-byte
buffer with two unread bytes appended to itself has to grow and then reads through the
pointer into the storage the `resize` released. -/
theorem Buffer.operations_preserve_invariant_counterexample :
    (Buffer.init 4).Inv ∧ ¬ ((Buffer.init 4).HasWritten 5).Inv ∧
    (⟨[0, 0, 0, 0, 0, 0, 0, 0], 0, 5⟩ : Buffer).Inv ∧
    (⟨[0, 0, 0, 0, 0, 0, 0, 0], 0, 5⟩ : Buffer).EnsureWriteable (SIZE_MAX - 1)
      = .ok ⟨[0, 0, 0, 0], 0, 5⟩ ∧
    ¬ (⟨[0, 0, 0, 0], 0, 5⟩ : Buffer).Inv ∧
    (Buffer.init 4).EnsureWriteable PTRDIFF_MAX = .error .lengthError ∧
    (⟨[11, 12, 0], 0, 2⟩ : Buffer).Inv ∧
    (⟨[11, 12, 0], 0, 2⟩ : Buffer).AppendBuffer .self = .error .danglingRead := by
  decide

/-! ## C4 -/

/-- Writing `s` at the write cursor and advancing the cursor appends `s` to the readable bytes. -/
theorem Buffer.readable_write (b : Buffer) (s : List Byte) (hinv : b.Inv)
    (hcap : b.buffer_.length < SIZE_MOD) (hroom : b.writePos_ + s.length ≤ b.buffer_.length) :
    Buffer.readable ⟨b.buffer_.take b.writePos_ ++ s ++ b.buffer_.drop (b.writePos_ + s.length),
      b.readPos_, b.writePos_ + s.length⟩ = b.readable ++ s := by
  obtain ⟨j1, j2⟩ := hinv
  unfold Buffer.readable Buffer.ReadableBytes
  simp only
  rw [sizeSub_eq _ _ (by omega) (by omega), sizeSub_eq _ _ j1 (by omega)]
  have ht : (b.buffer_.take b.writePos_).length = b.writePos_ := by
    simp only [List.length_take]; omega
  rw [List.append_assoc, List.drop_append_of_le_length (by omega)]
  rw [← List.append_assoc, List.take_append_of_le_length
    (by simp only [List.length_append, List.length_drop, ht]; omega)]
  rw [List.take_of_length_le (by simp only [List.length_append, List.length_drop, ht]; omega)]
  congr 1
  rw [List.drop_take]

/-- C4: with `readv` filling the writable area first and the 65535-byte spill array second, on
a buffer with `readPos_ ≤ writePos_ ≤ capacity` (the storage and the spill array on the
stack, both in memory, are together fewer than `PTRDIFF_MAX` bytes, so the `resize` of a
growth stays within `max_size()`) and readable bytes `r`, a successful read that delivers `d`
with
`len = d.length ≤ WritableBytes + 65535` makes `ReadFd` return `len`, leave `*saveErrno` alone
and leave exactly `r ++ d` readable (invariant kept); a failed `readv` returns `-1`, leaves the
buffer unchanged and stores `errno`. -/
theorem Buffer.ReadFd_appends (b : Buffer) (d : List Byte) (errno0 : Int) (hinv : b.Inv)
    (hlive : b.buffer_.length + Buffer.SPILL_SIZE < PTRDIFF_MAX)
    (hlen : d.length ≤ b.WritableBytes + Buffer.SPILL_SIZE) :
    (∃ b1, b.ReadFd (.bytes d) errno0 = .ok { buf := b1, ret := d.length, saveErrno := errno0 } ∧
      b1.readable = b.readable ++ d ∧ b1.Inv) ∧
    (∀ errno, b.ReadFd (.error errno) errno0 = .ok { buf := b, ret := -1, saveErrno := errno }) := by
  refine ⟨?_, fun errno => rfl⟩
  have hcap : b.buffer_.length ≤ PTRDIFF_MAX := by omega
  have hcap1 : b.buffer_.length < SIZE_MOD := (Buffer.fit_of_ptrdiff b 0 hinv hcap (by decide)).1
  have hw := Buffer.WritableBytes_eq b hinv hcap1
  have hinv0 := hinv
  obtain ⟨i1, i2⟩ := hinv
  rw [hw] at hlen
  unfold Buffer.SPILL_SIZE at hlen hlive
  by_cases hle : d.length ≤ b.buffer_.length - b.writePos_
  · -- everything lands in the writable area
    have hp1 : d.take (b.buffer_.length - b.writePos_) = d := List.take_of_length_le hle
    have hp2 : (d.drop (b.buffer_.length - b.writePos_)).take Buffer.SPILL_SIZE = [] := by
      rw [List.drop_of_length_le hle, List.take_nil]
    have hcopy := copyTo_ok b.buffer_ b.writePos_ d (by omega)
    have ha : sizeAdd b.writePos_ d.length = b.writePos_ + d.length := sizeAdd_eq _ _ (by omega)
    refine ⟨⟨b.buffer_.take b.writePos_ ++ d ++ b.buffer_.drop (b.writePos_ + d.length),
      b.readPos_, b.writePos_ + d.length⟩, ?_, ?_, ?_⟩
    · unfold Buffer.ReadFd readvScatter
      simp only [hw, hp1, hp2, hcopy, List.length_nil, Nat.add_zero, if_pos hle, ha]
    · exact Buffer.readable_write b d hinv0 hcap1 (by omega)
    · constructor
      · show b.readPos_ ≤ b.writePos_ + d.length
        omega
      · simp only [List.length_append, List.length_take, List.length_drop]; omega
  · -- the tail goes through the spill array and `Append`
    have hlt : b.buffer_.length - b.writePos_ < d.length := by omega
    have hl1 : (d.take (b.buffer_.length - b.writePos_)).length = b.buffer_.length - b.writePos_ := by
      rw [List.length_take]; omega
    have hp2 : (d.drop (b.buffer_.length - b.writePos_)).take Buffer.SPILL_SIZE
        = d.drop (b.buffer_.length - b.writePos_) := by
      apply List.take_of_length_le
      rw [List.length_drop]; unfold Buffer.SPILL_SIZE; omega
    have hl2 : (d.drop (b.buffer_.length - b.writePos_)).length
        = d.length - (b.buffer_.length - b.writePos_) := List.length_drop _ _
    have hcopy := copyTo_ok b.buffer_ b.writePos_ (d.take (b.buffer_.length - b.writePos_))
      (by omega)
    have hsum : b.writePos_ + (d.take (b.buffer_.length - b.writePos_)).length
        = b.buffer_.length := by omega
    have hread := Buffer.readable_write b (d.take (b.buffer_.length - b.writePos_)) hinv0 hcap1
      (by omega)
    rw [hsum] at hread hcopy
    have hlen0 : (b.buffer_.take b.writePos_ ++ d.take (b.buffer_.length - b.writePos_)
        ++ b.buffer_.drop b.buffer_.length).length = b.buffer_.length := by
      simp only [List.length_append, List.length_take, List.length_drop]; omega
    have hinv1 : Buffer.Inv ⟨b.buffer_.take b.writePos_ ++ d.take (b.buffer_.length - b.writePos_)
        ++ b.buffer_.drop b.buffer_.length, b.readPos_, b.buffer_.length⟩ := by
      constructor
      · show b.readPos_ ≤ b.buffer_.length
        omega
      · show b.buffer_.length ≤ _
        rw [hlen0]
    have hsub : sizeSub (b.buffer_.length - b.writePos_ + (d.length - (b.buffer_.length - b.writePos_)))
        (b.buffer_.length - b.writePos_) = d.length - (b.buffer_.length - b.writePos_) := by
      rw [sizeSub_eq _ _ (by omega) (by unfold PTRDIFF_MAX at hcap; unfold SIZE_MOD; omega)]
      omega
    have htk : (d.drop (b.buffer_.length - b.writePos_)).take
        (d.length - (b.buffer_.length - b.writePos_)) = d.drop (b.buffer_.length - b.writePos_) :=
      List.take_of_length_le (by rw [hl2])
    obtain ⟨b2, g1, g2, -, g4⟩ := Buffer.Append_spec _ (d.drop (b.buffer_.length - b.writePos_))
      hinv1 (by show _ < SIZE_MOD; rw [hlen0]; exact hcap1)
      (Or.inr (by
        show b.buffer_.length + (d.drop (b.buffer_.length - b.writePos_)).length + 1
          ≤ PTRDIFF_MAX
        rw [hl2]; omega))
    have hnle : ¬ (b.buffer_.length - b.writePos_ + (d.length - (b.buffer_.length - b.writePos_))
        ≤ b.buffer_.length - b.writePos_) := by omega
    have hret : ((b.buffer_.length - b.writePos_ + (d.length - (b.buffer_.length - b.writePos_))
        : Nat) : Int) = (d.length : Int) := by
      have : b.buffer_.length - b.writePos_ + (d.length - (b.buffer_.length - b.writePos_))
          = d.length := by omega
      rw [this]
    refine ⟨b2, ?_, ?_, g2⟩
    · unfold Buffer.ReadFd readvScatter
      simp only [hw, hp2, hl1, hl2, hcopy, if_neg hnle, hlen0, hsub, htk, g1, hret]
    · rw [g4, hread, List.append_assoc, List.take_append_drop]

/-- Witness of C4: two of four bytes written, five bytes delivered: two fill the writable
area, three pass through the spill array and force growth. -/
theorem Buffer.ReadFd_appends_witness :
    (⟨[1, 2, 0, 0], 0, 2⟩ : Buffer).Inv ∧
    ∃ b1, (⟨[1, 2, 0, 0], 0, 2⟩ : Buffer).ReadFd (.bytes [3, 4, 5, 6, 7]) 0
        = .ok { buf := b1, ret := ([3, 4, 5, 6, 7] : List Byte).length, saveErrno := 0 } ∧
      b1.readable = (⟨[1, 2, 0, 0], 0, 2⟩ : Buffer).readable ++ [3, 4, 5, 6, 7] ∧ b1.Inv :=
  ⟨by decide, (Buffer.ReadFd_appends ⟨[1, 2, 0, 0], 0, 2⟩ [3, 4, 5, 6, 7] 0
    (by decide) (by decide) (by decide)).1⟩

/-! ## C5 -/

/-- C5 (as amended): on a buffer with `readPos_ ≤ writePos_ ≤ capacity`, the operations that
drain it leave it empty, `readPos_ = writePos_`: `Retrieve(ReadableBytes())`,
`RetrieveUntil(write position)` and a `WriteFd` whose `write` took all readable bytes move
`readPos_` up to the unchanged `writePos_` (the cursors are not reset), while `RetrieveAll` and
`RetrieveAllToStr` set `readPos_ = writePos_ = 0`. -/
theorem Buffer.drain_cursors (b : Buffer) (hinv : b.Inv) (hcap : b.buffer_.length < SIZE_MOD) :
    (∃ b1, b.Retrieve b.ReadableBytes = .ok b1 ∧ b1.readPos_ = b.writePos_ ∧
      b1.writePos_ = b.writePos_ ∧ b1.ReadableBytes = 0) ∧
    (∃ b1, b.RetrieveUntil b.writePos_ = .ok b1 ∧ b1.readPos_ = b.writePos_ ∧
      b1.writePos_ = b.writePos_ ∧ b1.ReadableBytes = 0) ∧
    (∀ errno0, ((b.WriteFd (.wrote b.ReadableBytes) errno0).buf.readPos_ = b.writePos_ ∧
      (b.WriteFd (.wrote b.ReadableBytes) errno0).buf.writePos_ = b.writePos_ ∧
      (b.WriteFd (.wrote b.ReadableBytes) errno0).buf.ReadableBytes = 0 ∧
      (b.WriteFd (.wrote b.ReadableBytes) errno0).ret = b.ReadableBytes)) ∧
    (b.RetrieveAll.readPos_ = 0 ∧ b.RetrieveAll.writePos_ = 0) ∧
    (b.RetrieveAllToStr.1.readPos_ = 0 ∧ b.RetrieveAllToStr.1.writePos_ = 0) := by
  have hr := Buffer.ReadableBytes_eq b hinv hcap
  have i1 := hinv.1
  have i2 := hinv.2
  have hz : ∀ b1 : Buffer, b1.readPos_ = b.writePos_ → b1.writePos_ = b.writePos_ →
      b1.ReadableBytes = 0 := by
    intro b1 e1 e2
    unfold Buffer.ReadableBytes
    rw [e1, e2, sizeSub_eq _ _ (Nat.le_refl _) (by omega)]
    omega
  refine ⟨?_, ?_, ?_, ⟨rfl, rfl⟩, ⟨rfl, rfl⟩⟩
  · obtain ⟨b1, g1, -, g3, g4, -⟩ := Buffer.Retrieve_inv b b.ReadableBytes hinv hcap (Nat.le_refl _)
    have e1 : b1.readPos_ = b.writePos_ := by omega
    exact ⟨b1, g1, e1, g4, hz b1 e1 g4⟩
  · obtain ⟨b1, g1, -, g3, g4, -⟩ := Buffer.RetrieveUntil_inv b b.writePos_ hinv hcap i1
      (Nat.le_refl _)
    exact ⟨b1, g1, g3, g4, hz b1 g3 g4⟩
  · intro errno0
    have ha : sizeAdd b.readPos_ (b.writePos_ - b.readPos_) = b.writePos_ := by
      rw [sizeAdd_eq _ _ (by omega)]; omega
    have hw : b.WriteFd (.wrote b.ReadableBytes) errno0 =
        { buf := { b with readPos_ := b.writePos_ }, ret := ((b.writePos_ - b.readPos_ : Nat) : Int),
          saveErrno := errno0 } := by
      unfold Buffer.WriteFd
      simp only [hr, Nat.min_self, ha]
    rw [hw, hr]
    exact ⟨rfl, rfl, hz _ rfl rfl, rfl⟩

/-- Witness of C5: four bytes of storage, two of them unread. -/
theorem Buffer.drain_cursors_witness :
    (⟨[1, 2, 0, 0], 0, 2⟩ : Buffer).Inv ∧
    ∃ b1, (⟨[1, 2, 0, 0], 0, 2⟩ : Buffer).Retrieve (⟨[1, 2, 0, 0], 0, 2⟩ : Buffer).ReadableBytes
        = .ok b1 ∧ b1.readPos_ = (⟨[1, 2, 0, 0], 0, 2⟩ : Buffer).writePos_ ∧
      b1.writePos_ = (⟨[1, 2, 0, 0], 0, 2⟩ : Buffer).writePos_ ∧ b1.ReadableBytes = 0 :=
  ⟨by decide, (Buffer.drain_cursors ⟨[1, 2, 0, 0], 0, 2⟩ (by decide) (by decide)).1⟩

/-- Counterexample to C5 as stated: with two unread bytes at positions 0 and 1,
`Retrieve(ReadableBytes())`, `RetrieveUntil(write position)` and a `WriteFd` that writes both
bytes each leave `readPos_ = writePos_ = 2`, not `0`. -/
theorem Buffer.drain_cursors_counterexample :
    (⟨[1, 2, 0, 0], 0, 2⟩ : Buffer).Inv ∧
    (⟨[1, 2, 0, 0], 0, 2⟩ : Buffer).Retrieve (⟨[1, 2, 0, 0], 0, 2⟩ : Buffer).ReadableBytes
      = .ok ⟨[1, 2, 0, 0], 2, 2⟩ ∧
    (⟨[1, 2, 0, 0], 0, 2⟩ : Buffer).RetrieveUntil 2 = .ok ⟨[1, 2, 0, 0], 2, 2⟩ ∧
    (⟨[1, 2, 0, 0], 0, 2⟩ : Buffer).WriteFd (.wrote 2) 0
      = { buf := ⟨[1, 2, 0, 0], 2, 2⟩, ret := 2, saveErrno := 0 } := by
  decide

/-! ## C6, C7, C8: BlockDeque -/

namespace BlockDeque

variable {T : Type}

theorem step_size (q q1 : BlockDeque T) (op : Op T) (h : q.deq_.length ≤ q.capacity_)
    (hs : q.step op = some q1) :
    q1.deq_.length ≤ q1.capacity_ ∧ q1.capacity_ = q.capacity_ := by
  cases op with
  | push_back item =>
    simp only [step, push_back] at hs
    split at hs
    · cases hs
    · cases hs
      refine ⟨?_, rfl⟩
      show (q.deq_ ++ [item]).length ≤ q.capacity_
      rw [List.length_append, List.length_singleton]
      omega
  | push_front item =>
    simp only [step, push_front] at hs
    split at hs
    · cases hs
    · cases hs
      refine ⟨?_, rfl⟩
      show (item :: q.deq_).length ≤ q.capacity_
      rw [List.length_cons]
      omega
  | pop w =>
    simp only [step, pop] at hs
    split at hs
    · cases hs
      exact ⟨h, rfl⟩
    · cases hq : q.deq_ with
      | nil => rw [hq] at hs; cases hs
      | cons x rest =>
        rw [hq] at hs h
        cases hs
        simp only [List.length_cons] at h
        exact ⟨by show rest.length ≤ q.capacity_; omega, rfl⟩
  | popTimeout w =>
    simp only [step, popTimeout] at hs
    split at hs
    · cases hs
      exact ⟨h, rfl⟩
    · split at hs
      · cases hs
        exact ⟨h, rfl⟩
      · cases hq : q.deq_ with
        | nil => rw [hq] at hs; cases hs
        | cons x rest =>
          rw [hq] at hs h
          cases hs
          simp only [List.length_cons] at h
          exact ⟨by show rest.length ≤ q.capacity_; omega, rfl⟩
  | clear =>
    cases hs
    exact ⟨Nat.zero_le _, rfl⟩
  | Close =>
    cases hs
    exact ⟨Nat.zero_le _, rfl⟩
  | flush =>
    cases hs
    exact ⟨h, rfl⟩

theorem run_size (ops : List (Op T)) : ∀ (q q1 : BlockDeque T), q.deq_.length ≤ q.capacity_ →
    q.run ops = some q1 → q1.deq_.length ≤ q1.capacity_ ∧ q1.capacity_ = q.capacity_ := by
  induction ops with
  | nil =>
    intro q q1 h hr
    cases hr
    exact ⟨h, rfl⟩
  | cons op ops ih =>
    intro q q1 h hr
    unfold run at hr
    cases hs : q.step op with
    | none => rw [hs] at hr; cases hr
    | some q2 =>
      rw [hs] at hr
      obtain ⟨h1, h2⟩ := step_size q q2 op h hs
      obtain ⟨h3, h4⟩ := ih q2 q1 h1 hr
      exact ⟨h3, by rw [h4, h2]⟩

/-- C6: a deque constructed with capacity `cap > 0` is empty, and after every sequence of
completed `push_back`, `push_front`, `pop`, `clear`, `Close` (and `flush`) operations the
number of stored items is at most the capacity, which is still `cap`; `full()` is true
exactly when `size >= capacity`. -/
theorem size_le_capacity (cap : Nat) (hcap : 0 < cap) :
    ∃ q0 : BlockDeque T, init cap = .ok q0 ∧ q0.size = 0 ∧
      ∀ (ops : List (Op T)) (q : BlockDeque T), q0.run ops = some q →
        q.size ≤ q.capacity ∧ q.capacity = cap ∧ (q.full = true ↔ q.size ≥ q.capacity) := by
  refine ⟨{ deq_ := [], capacity_ := cap, isClose_ := false }, ?_, rfl, ?_⟩
  · unfold init
    rw [if_pos hcap]
  · intro ops q hr
    obtain ⟨h1, h2⟩ := run_size ops _ q (Nat.zero_le _) hr
    refine ⟨h1, h2, ?_⟩
    unfold full size capacity
    exact decide_eq_true_iff

/-- Witness of C6: capacity 2; two pushes fill the deque, a third push cannot complete. -/
theorem size_le_capacity_witness :
    (0 < 2) ∧
    (∃ q0 : BlockDeque Nat, init 2 = .ok q0 ∧ q0.size = 0 ∧
      ∀ (ops : List (Op Nat)) (q : BlockDeque Nat), q0.run ops = some q →
        q.size ≤ q.capacity ∧ q.capacity = 2 ∧ (q.full = true ↔ q.size ≥ q.capacity)) ∧
    run (⟨[], 2, false⟩ : BlockDeque Nat) [.push_back 1, .push_front 2] = some ⟨[2, 1], 2, false⟩ ∧
    run (⟨[], 2, false⟩ : BlockDeque Nat) [.push_back 1, .push_front 2, .push_back 3] = none :=
  ⟨by decide, size_le_capacity 2 (by decide), by decide, by decide⟩

end BlockDeque

namespace BlockDeque

variable {T : Type}

theorem step_closed (q q1 : BlockDeque T) (op : Op T) (hc : q.isClose_ = true)
    (hs : q.step op = some q1) :
    q1.isClose_ = true ∧ (op.isPush = false → q.deq_ = [] → q1.deq_ = []) := by
  cases op with
  | push_back item =>
    simp only [step, push_back] at hs
    split at hs
    · cases hs
    · cases hs
      exact ⟨hc, fun h => by cases h⟩
  | push_front item =>
    simp only [step, push_front] at hs
    split at hs
    · cases hs
    · cases hs
      exact ⟨hc, fun h => by cases h⟩
  | pop w =>
    simp only [step, pop] at hs
    split at hs
    · cases hs
      exact ⟨hc, fun _ h => h⟩
    · cases hq : q.deq_ with
      | nil => rw [hq] at hs; cases hs
      | cons x rest =>
        rw [hq] at hs
        cases hs
        exact ⟨hc, fun _ h => by cases h⟩
  | popTimeout w =>
    simp only [step, popTimeout] at hs
    split at hs
    · cases hs
      exact ⟨hc, fun _ h => h⟩
    · split at hs
      · cases hs
        exact ⟨hc, fun _ h => h⟩
      · cases hq : q.deq_ with
        | nil => rw [hq] at hs; cases hs
        | cons x rest =>
          rw [hq] at hs
          cases hs
          exact ⟨hc, fun _ h => by cases h⟩
  | clear =>
    cases hs
    exact ⟨hc, fun _ _ => rfl⟩
  | Close =>
    cases hs
    exact ⟨rfl, fun _ _ => rfl⟩
  | flush =>
    cases hs
    exact ⟨hc, fun _ h => h⟩

theorem run_closed (ops : List (Op T)) : ∀ (q q1 : BlockDeque T), q.isClose_ = true →
    q.run ops = some q1 →
    q1.isClose_ = true ∧ ((∀ op ∈ ops, op.isPush = false) → q.deq_ = [] → q1.deq_ = []) := by
  induction ops with
  | nil =>
    intro q q1 hc hr
    cases hr
    exact ⟨hc, fun _ h => h⟩
  | cons op ops ih =>
    intro q q1 hc hr
    unfold run at hr
    cases hs : q.step op with
    | none => rw [hs] at hr; cases hr
    | some q2 =>
      rw [hs] at hr
      obtain ⟨h1, h2⟩ := step_closed q q2 op hc hs
      obtain ⟨h3, h4⟩ := ih q2 q1 h1 hr
      refine ⟨h3, fun hp he => ?_⟩
      exact h4 (fun o ho => hp o (List.mem_cons_of_mem _ ho))
        (h2 (hp op (List.mem_cons_self _ _)) he)

/-- C7 (as amended): after `Close()`, whatever completed operations follow (pushes included)
the deque stays closed, and a `pop` (with or without timeout) that had to wait returns
`false` and stores no item once it is woken; and when no `push_back` or `push_front`
follows the `Close()`, the deque stays empty and every `pop` that returns, returns `false`
and stores no item. -/
theorem pop_after_Close (q0 q : BlockDeque T) (ops : List (Op T))
    (hrun : q0.Close.run ops = some q) :
    q.isClose_ = true ∧
    (∀ w, w ≠ Wake.entry →
      q.pop w = some { q := q, ret := false, item := none } ∧
      q.popTimeout w = some { q := q, ret := false, item := none }) ∧
    ((∀ op ∈ ops, op.isPush = false) →
      q.deq_ = [] ∧
      ∀ w r, (q.pop w = some r ∨ q.popTimeout w = some r) → r.ret = false ∧ r.item = none) := by
  obtain ⟨hc, hd⟩ := run_closed ops q0.Close q rfl hrun
  have hwoken : ∀ w, w ≠ Wake.entry →
      q.pop w = some { q := q, ret := false, item := none } ∧
      q.popTimeout w = some { q := q, ret := false, item := none } := by
    intro w hw
    constructor
    · unfold pop
      rw [if_pos ⟨hw, hc⟩]
    · unfold popTimeout
      by_cases ht : w = Wake.timeout
      · rw [if_pos ht]
      · rw [if_neg ht, if_pos ⟨hw, hc⟩]
  refine ⟨hc, hwoken, fun hp => ?_⟩
  have he : q.deq_ = [] := hd hp rfl
  refine ⟨he, fun w r hr => ?_⟩
  by_cases hw : w = Wake.entry
  · rcases hr with hr | hr
    · unfold pop at hr
      rw [if_neg (fun h => h.1 hw), he] at hr
      cases hr
    · unfold popTimeout at hr
      rw [if_neg (by rw [hw]; decide), if_neg (fun h => h.1 hw), he] at hr
      cases hr
  · obtain ⟨h1, h2⟩ := hwoken w hw
    rcases hr with hr | hr
    · rw [h1] at hr
      cases hr
      exact ⟨rfl, rfl⟩
    · rw [h2] at hr
      cases hr
      exact ⟨rfl, rfl⟩

/-- Witness of C7: a deque of capacity 2 holding one item is closed, then cleared and flushed;
a woken `pop` returns `false`. -/
theorem pop_after_Close_witness :
    run (Close (⟨[5], 2, false⟩ : BlockDeque Nat)) [.clear, .flush, .pop .notified]
      = some ⟨[], 2, true⟩ ∧
    pop (⟨[], 2, true⟩ : BlockDeque Nat) .notified
      = some { q := ⟨[], 2, true⟩, ret := false, item := none } :=
  ⟨by decide, ((pop_after_Close (⟨[5], 2, false⟩ : BlockDeque Nat) ⟨[], 2, true⟩
    [.clear, .flush, .pop .notified] (by decide)).2.1 .notified (by decide)).1⟩

/-- Counterexample to C7 as stated: on a deque of capacity 2, `Close()` then `push_back(7)`
completes (no push tests `isClose_`), and the next `pop` finds the deque non-empty on entry
and returns `true` with the item 7. -/
theorem pop_after_Close_counterexample :
    init 2 = .ok (⟨[], 2, false⟩ : BlockDeque Nat) ∧
    run (Close (⟨[], 2, false⟩ : BlockDeque Nat)) [.push_back 7] = some ⟨[7], 2, true⟩ ∧
    pop (⟨[7], 2, true⟩ : BlockDeque Nat) .entry
      = some { q := ⟨[], 2, true⟩, ret := true, item := some 7 } := by
  decide

end BlockDeque

namespace BlockDeque

variable {T : Type}

theorem pushBackAll_eq (xs : List T) : ∀ q : BlockDeque T,
    q.deq_.length + xs.length ≤ q.capacity_ →
    q.pushBackAll xs = some { q with deq_ := q.deq_ ++ xs } := by
  induction xs with
  | nil =>
    intro q _
    unfold pushBackAll
    rw [List.append_nil]
  | cons x xs ih =>
    intro q h
    rw [List.length_cons] at h
    have hp : q.push_back x = some { q with deq_ := q.deq_ ++ [x] } := by
      unfold push_back
      rw [if_neg (by omega)]
    unfold pushBackAll
    rw [hp]
    have := ih { q with deq_ := q.deq_ ++ [x] }
      (by show (q.deq_ ++ [x]).length + xs.length ≤ q.capacity_
          rw [List.length_append, List.length_singleton]; omega)
    simp only [this, List.append_assoc, List.singleton_append]

theorem pushFrontAll_eq (xs : List T) : ∀ q : BlockDeque T,
    q.deq_.length + xs.length ≤ q.capacity_ →
    q.pushFrontAll xs = some { q with deq_ := xs.reverse ++ q.deq_ } := by
  induction xs with
  | nil =>
    intro q _
    unfold pushFrontAll
    rw [List.reverse_nil, List.nil_append]
  | cons x xs ih =>
    intro q h
    rw [List.length_cons] at h
    have hp : q.push_front x = some { q with deq_ := x :: q.deq_ } := by
      unfold push_front
      rw [if_neg (by omega)]
    unfold pushFrontAll
    rw [hp]
    have := ih { q with deq_ := x :: q.deq_ }
      (by show (x :: q.deq_).length + xs.length ≤ q.capacity_
          rw [List.length_cons]; omega)
    simp only [this, List.reverse_cons, List.append_assoc, List.singleton_append]

theorem popEach_eq (ys : List T) : ∀ (cap : Nat) (ws : List Wake), ws.length = ys.length →
    popEach (⟨ys, cap, false⟩ : BlockDeque T) ws
      = some (⟨[], cap, false⟩, ys.map (fun y => (true, some y))) := by
  induction ys with
  | nil =>
    intro cap ws h
    cases ws with
    | nil => rfl
    | cons w ws => cases h
  | cons y ys ih =>
    intro cap ws h
    cases ws with
    | nil => cases h
    | cons w ws =>
      rw [List.length_cons, List.length_cons] at h
      have hp : pop (⟨y :: ys, cap, false⟩ : BlockDeque T) w
          = some { q := ⟨ys, cap, false⟩, ret := true, item := some y } := by
        unfold pop
        rw [if_neg (fun hh => by cases hh.2)]
      unfold popEach
      rw [hp]
      simp only [ih cap ws (by omega), List.map_cons]

/-- C8: a `pop` that returns `true` stores the front item and removes exactly that item; so,
on an empty open deque and for `x1..xn` with `n ≤ capacity`, the calls `push_back(x1)` ..
`push_back(xn)` all complete and `n` pops then return `true` with `x1, .., xn` in that order,
the calls `push_front(x1)` .. `push_front(xn)` all complete and `n` pops then return `true`
with `xn, .., x1`; the deque is empty afterwards. -/
theorem fifo_lifo (q : BlockDeque T) (xs : List T) (ws : List Wake) (hempty : q.deq_ = [])
    (hopen : q.isClose_ = false) (hn : xs.length ≤ q.capacity_) (hws : ws.length = xs.length) :
    (∀ (p : BlockDeque T) (w : Wake) (r : PopResult T), p.pop w = some r → r.ret = true →
      ∃ x rest, p.deq_ = x :: rest ∧ r.item = some x ∧ r.q = { p with deq_ := rest }) ∧
    (∃ q1, q.pushBackAll xs = some q1 ∧
      q1.popEach ws = some ({ q with deq_ := [] }, xs.map (fun x => (true, some x)))) ∧
    (∃ q1, q.pushFrontAll xs = some q1 ∧
      q1.popEach ws = some ({ q with deq_ := [] }, xs.reverse.map (fun x => (true, some x)))) := by
  obtain ⟨d, c, cl⟩ := q
  simp only at hempty hopen hn
  subst hempty
  subst hopen
  refine ⟨?_, ?_, ?_⟩
  · intro p w r hp hr
    unfold pop at hp
    split at hp
    · cases hp
      cases hr
    · cases hq : p.deq_ with
      | nil => rw [hq] at hp; cases hp
      | cons x rest =>
        rw [hq] at hp
        cases hp
        exact ⟨x, rest, rfl, rfl, rfl⟩
  · refine ⟨_, pushBackAll_eq xs _ (by simpa using hn), ?_⟩
    simp only [List.nil_append]
    exact popEach_eq xs c ws hws
  · refine ⟨_, pushFrontAll_eq xs _ (by simpa using hn), ?_⟩
    simp only [List.append_nil]
    exact popEach_eq xs.reverse c ws (by rw [List.length_reverse]; exact hws)

/-- Witness of C8: three items through a deque of capacity 3. -/
theorem fifo_lifo_witness :
    (∃ q1, pushBackAll (⟨[], 3, false⟩ : BlockDeque Nat) [10, 20, 30] = some q1 ∧
      q1.popEach [.entry, .entry, .notified]
        = some (⟨[], 3, false⟩, [(true, some 10), (true, some 20), (true, some 30)])) ∧
    (∃ q1, pushFrontAll (⟨[], 3, false⟩ : BlockDeque Nat) [10, 20, 30] = some q1 ∧
      q1.popEach [.entry, .entry, .notified]
        = some (⟨[], 3, false⟩, [(true, some 30), (true, some 20), (true, some 10)])) :=
  (fifo_lifo (⟨[], 3, false⟩ : BlockDeque Nat) [10, 20, 30] [.entry, .entry, .notified]
    rfl rfl (by decide) (by decide)).2

end BlockDeque

/-! ## C9: log rotation -/

theorem snprintf_fits (size : Nat) (out : CStr) (h : out.length ≤ size - 1) :
    snprintf size out = out := by
  unfold snprintf
  exact List.take_of_length_le h

theorem fmtPad_length (w n : Nat) (hw : 0 < w) (hn : n < 10 ^ w) : (fmtPad w n).length = w := by
  have h : (fmtD n).length ≤ w := by
    unfold fmtD
    exact Nat.repr_length n w hw hn
  unfold fmtPad
  rw [List.length_append, List.length_replicate]
  omega

theorem Log.tail_eq_dateText (t : Tm) (hy : t.tm_year + 1900 < 10000) (hm : t.tm_mon + 1 < 100)
    (hd : t.tm_mday < 100) : Log.tail t = Log.dateText t ∧ (Log.dateText t).length = 10 := by
  have h1 := fmtPad_length 4 (t.tm_year + 1900) (by decide) (by omega)
  have h2 := fmtPad_length 2 (t.tm_mon + 1) (by decide) (by omega)
  have h3 := fmtPad_length 2 t.tm_mday (by decide) (by omega)
  have hl : (Log.dateText t).length = 10 := by
    unfold Log.dateText
    simp only [List.length_append, List.length_singleton, h1, h2, h3]
  refine ⟨?_, hl⟩
  unfold Log.tail
  exact snprintf_fits 36 _ (by omega)

/-- C9 (as amended): `Log::write` opens a new file if and only if the day of month differs from
`toDay_` or `lineCount_` is a non-zero multiple of `MAX_LINES` (50000). On a day change (also
when both hold) the name passed to `fopen` is `<dir>/YYYY_MM_DD<suffix>` cut to at most
`LOG_NAME_LEN - 73 = 183` characters, `toDay_` becomes the current day and the counter is
reset to 0, so it is 1 after the line is written; otherwise the name is
`<dir>/YYYY_MM_DD-<n><suffix>` with `n = lineCount_ / MAX_LINES`, cut in the same way, and
the counter is not reset. Without rotation nothing changes but the counter. A name of at most
183 characters is not cut, and for a year below 10000 the date part is the ten characters
`YYYY_MM_DD`. -/
theorem Log.rotation_rule (s : Log) (t : Tm) :
    ((s.rotate t).2.isSome = true ↔
      (s.toDay_ ≠ t.tm_mday ∨ (s.lineCount_ ≠ 0 ∧ s.lineCount_ % MAX_LINES = 0))) ∧
    (s.toDay_ ≠ t.tm_mday →
      (s.rotate t).2 = some ((s.path_ ++ ['/'] ++ Log.tail t ++ s.suffix_).take 183) ∧
      (s.rotate t).1.fp_ = (s.path_ ++ ['/'] ++ Log.tail t ++ s.suffix_).take 183 ∧
      (s.rotate t).1.toDay_ = t.tm_mday ∧ (s.rotate t).1.lineCount_ = 0 ∧
      (s.write t).1.lineCount_ = 1) ∧
    (s.toDay_ = t.tm_mday → s.lineCount_ ≠ 0 → s.lineCount_ % MAX_LINES = 0 →
      (s.rotate t).2 = some ((s.path_ ++ ['/'] ++ Log.tail t ++ ['-'] ++
        fmtD (s.lineCount_ / MAX_LINES) ++ s.suffix_).take 183) ∧
      (s.rotate t).1.toDay_ = s.toDay_ ∧ (s.rotate t).1.lineCount_ = s.lineCount_ ∧
      (s.write t).1.lineCount_ = s.lineCount_ + 1) ∧
    (s.toDay_ = t.tm_mday → (s.lineCount_ = 0 ∨ s.lineCount_ % MAX_LINES ≠ 0) →
      s.rotate t = (s, none) ∧ (s.write t).1.lineCount_ = s.lineCount_ + 1) ∧
    (∀ name : CStr, name.length ≤ 183 → name.take 183 = name) ∧
    (t.tm_year + 1900 < 10000 → t.tm_mon + 1 < 100 → t.tm_mday < 100 →
      Log.tail t = Log.dateText t ∧ (Log.dateText t).length = 10) := by
  refine ⟨?_, ?_, ?_, ?_, fun name h => List.take_of_length_le h, Log.tail_eq_dateText t⟩
  · unfold Log.rotate
    by_cases hc : s.toDay_ ≠ t.tm_mday ∨ (s.lineCount_ ≠ 0 ∧ s.lineCount_ % MAX_LINES = 0)
    · rw [if_pos hc]
      by_cases hd : s.toDay_ ≠ t.tm_mday
      · rw [if_pos hd]
        exact ⟨fun _ => hc, fun _ => rfl⟩
      · rw [if_neg hd]
        exact ⟨fun _ => hc, fun _ => rfl⟩
    · rw [if_neg hc]
      exact ⟨fun h => (by cases h), fun h => absurd h hc⟩
  · intro hd
    have hr : s.rotate t =
        (⟨0, t.tm_mday, s.path_, s.suffix_, (s.path_ ++ ['/'] ++ Log.tail t ++ s.suffix_).take 183⟩,
          some ((s.path_ ++ ['/'] ++ Log.tail t ++ s.suffix_).take 183)) := by
      unfold Log.rotate
      rw [if_pos (Or.inl hd), if_pos hd]
      rfl
    unfold Log.write
    rw [hr]
    exact ⟨rfl, rfl, rfl, rfl, rfl⟩
  · intro hd h0 hm
    have hr : s.rotate t =
        (⟨s.lineCount_, s.toDay_, s.path_, s.suffix_, (s.path_ ++ ['/'] ++ Log.tail t ++ ['-'] ++
            fmtD (s.lineCount_ / MAX_LINES) ++ s.suffix_).take 183⟩,
          some ((s.path_ ++ ['/'] ++ Log.tail t ++ ['-'] ++
            fmtD (s.lineCount_ / MAX_LINES) ++ s.suffix_).take 183)) := by
      unfold Log.rotate
      rw [if_pos (Or.inr ⟨h0, hm⟩), if_neg (fun h => h hd)]
      rfl
    unfold Log.write
    rw [hr]
    exact ⟨rfl, rfl, rfl, rfl⟩
  · intro hd hn
    have hr : s.rotate t = (s, none) := by
      unfold Log.rotate
      rw [if_neg]
      intro h
      rcases h with h | ⟨h1, h2⟩
      · exact h hd
      · rcases hn with hn | hn
        · exact h1 hn
        · exact hn h2
    unfold Log.write
    rw [hr]
    exact ⟨rfl, rfl⟩

/-- Witness of C9: the first line of 1 November 2026 after a last write on the 31st, and the
line after 100000 lines on the same day. -/
theorem Log.rotation_rule_witness :
    (Log.rotate ⟨5, 31, "./log".data, ".log".data, "./log/2026_10_31.log".data⟩ ⟨126, 10, 1⟩).2
      = some "./log/2026_11_01.log".data ∧
    (Log.write ⟨5, 31, "./log".data, ".log".data, "./log/2026_10_31.log".data⟩
      ⟨126, 10, 1⟩).1.lineCount_ = 1 ∧
    (Log.rotate ⟨100000, 1, "./log".data, ".log".data, "./log/2026_11_01.log".data⟩ ⟨126, 10, 1⟩).2
      = some "./log/2026_11_01-2.log".data :=
  ⟨((Log.rotation_rule ⟨5, 31, "./log".data, ".log".data, "./log/2026_10_31.log".data⟩
      ⟨126, 10, 1⟩).2.1 (by decide)).1.trans (by decide),
   ((Log.rotation_rule ⟨5, 31, "./log".data, ".log".data, "./log/2026_10_31.log".data⟩
      ⟨126, 10, 1⟩).2.1 (by decide)).2.2.2.2,
   ((Log.rotation_rule ⟨100000, 1, "./log".data, ".log".data, "./log/2026_11_01.log".data⟩
      ⟨126, 10, 1⟩).2.2.1 (by decide) (by decide) (by decide)).1.trans (by decide)⟩

set_option maxRecDepth 20000 in
/-- Counterexample to C9 as stated: with a directory name of 180 characters, on a day change
the name passed to `fopen` is the 183 characters that `snprintf(newFile, LOG_NAME_LEN - 72, ..)`
keeps, not the 195 characters of `<dir>/2026_11_01.log`. -/
theorem Log.rotation_rule_counterexample :
    (31 : Nat) ≠ (⟨126, 10, 1⟩ : Tm).tm_mday ∧
    (Log.rotate ⟨5, 31, List.replicate 180 'a', ".log".data, []⟩ ⟨126, 10, 1⟩).2
      = some (List.replicate 180 'a' ++ "/20".data) ∧
    (Log.rotate ⟨5, 31, List.replicate 180 'a', ".log".data, []⟩ ⟨126, 10, 1⟩).2
      ≠ some (List.replicate 180 'a' ++ "/2026_11_01.log".data) := by
  decide

/-! ## C10: SqlConnPool accounting -/

namespace SqlConnPool

theorem initLoop_spec (connect : Nat → MysqlPtr) (k : Nat) : ∀ (i : Nat) (que : List MysqlPtr),
    (initLoop connect k i que).length = que.length + k ∧
    ((∀ x ∈ que, x ≠ none) → (∀ j, i ≤ j → j < i + k → connect j ≠ none) →
      ∀ x ∈ initLoop connect k i que, x ≠ none) := by
  induction k with
  | zero =>
    intro i que
    exact ⟨rfl, fun h _ => h⟩
  | succ k ih =>
    intro i que
    obtain ⟨h1, h2⟩ := ih (i + 1) (que ++ [connect i])
    unfold initLoop
    refine ⟨?_, fun hq hc => ?_⟩
    · rw [h1, List.length_append, List.length_singleton]
      omega
    · apply h2
      · intro x hx
        rw [List.mem_append, List.mem_singleton] at hx
        rcases hx with hx | hx
        · exact hq x hx
        · rw [hx]
          exact hc i (Nat.le_refl _) (by omega)
      · intro j hj1 hj2
        exact hc j (by omega) (by omega)

theorem call_balanced (n : Nat) (st : SqlConnPool × List Nat) (c : Call) (hb : Balanced n st) :
    (∃ st1, call st c = .ok st1 ∧ Balanced n st1) ∨ call st c = .error .notHeld := by
  obtain ⟨p, held⟩ := st
  obtain ⟨h1, h2, h3⟩ := hb
  simp only at h1 h2 h3
  cases c with
  | GetConn =>
    left
    cases hq : p.connQue_ with
    | nil =>
      refine ⟨(p, held), ?_, ?_⟩
      · simp only [call, SqlConnPool.GetConn, hq]
      · exact ⟨h1, h2, h3⟩
    | cons sql rest =>
      rw [hq] at h1 h2 h3
      rw [List.length_cons] at h1 h2
      have hs : p.semId_ ≠ 0 := by omega
      cases hsql : sql with
      | none => exact absurd hsql (h3 sql (List.mem_cons_self _ _))
      | some h =>
        refine ⟨({ p with semId_ := p.semId_ - 1, connQue_ := rest }, h :: held), ?_, ?_, ?_, ?_⟩
        · simp only [call, SqlConnPool.GetConn, hq, hsql, if_neg hs]
        · show (h :: held).length + rest.length = n
          rw [List.length_cons]; omega
        · show p.semId_ - 1 = rest.length
          omega
        · intro x hx
          exact h3 x (List.mem_cons_of_mem _ hx)
  | FreeConn h =>
    by_cases hm : h ∈ held
    · left
      refine ⟨({ p with connQue_ := p.connQue_ ++ [some h], semId_ := p.semId_ + 1 },
        held.erase h), ?_, ?_, ?_, ?_⟩
      · simp only [call, if_pos hm, FreeConn]
      · show (held.erase h).length + (p.connQue_ ++ [some h]).length = n
        have hpos : 0 < held.length := List.length_pos_of_mem hm
        rw [List.length_erase_of_mem hm, List.length_append, List.length_singleton]
        omega
      · show p.semId_ + 1 = (p.connQue_ ++ [some h]).length
        rw [List.length_append, List.length_singleton]; omega
      · intro x hx
        rw [List.mem_append, List.mem_singleton] at hx
        rcases hx with hx | hx
        · exact h3 x hx
        · rw [hx]; exact fun hh => by cases hh
    · right
      simp only [call, if_neg hm]

theorem calls_balanced (n : Nat) (cs : List Call) : ∀ st : SqlConnPool × List Nat,
    Balanced n st →
    (∃ st1, calls st cs = .ok st1 ∧ Balanced n st1) ∨ calls st cs = .error .notHeld := by
  induction cs with
  | nil =>
    intro st hb
    exact Or.inl ⟨st, rfl, hb⟩
  | cons c cs ih =>
    intro st hb
    rcases call_balanced n st c hb with ⟨st1, hc, hb1⟩ | hc
    · rcases ih st1 hb1 with ⟨st2, hcs, hb2⟩ | hcs
      · left
        refine ⟨st2, ?_, hb2⟩
        unfold calls
        rw [hc]
        exact hcs
      · right
        unfold calls
        rw [hc]
        exact hcs
    · right
      unfold calls
      rw [hc]

/-- C10: after `Init` with `connSize = n > 0` in which every connection succeeded, the queue
holds `n` handles and the semaphore is `n`; and every sequence of `GetConn` and `FreeConn`
calls either releases a handle that is not held (outside the contract) or runs to its end,
no `GetConn` waiting and no assert failing, and then (handles held) + (length of the free
queue) = `n` and the semaphore equals the length of the free queue; there `GetConn` on an
empty queue returns null and changes neither. -/
theorem accounting (connect : Nat → MysqlPtr) (n : Nat) (hn : 0 < n)
    (hconn : ∀ i, i < n → connect i ≠ none) :
    ∃ p0, SqlConnPool.new.Init connect n = .ok p0 ∧ p0.connQue_.length = n ∧ p0.semId_ = n ∧
      ∀ cs : List Call,
        (∃ st, calls (p0, []) cs = .ok st ∧
          st.2.length + st.1.connQue_.length = n ∧ st.1.semId_ = st.1.connQue_.length ∧
          (st.1.connQue_ = [] → st.1.GetConn = some (st.1, none)) ∧
          st.1.GetConn ≠ none) ∨
        calls (p0, []) cs = .error .notHeld := by
  obtain ⟨hl, hnn⟩ := initLoop_spec connect n 0 []
  have hnn1 : ∀ x ∈ initLoop connect n 0 [], x ≠ none :=
    hnn (fun x hx => by cases hx) (fun j _ hj => hconn j (by omega))
  rw [List.length_nil, Nat.zero_add] at hl
  refine ⟨⟨n, 0, 0, initLoop connect n 0 [], n⟩, ?_, hl, rfl, ?_⟩
  · unfold Init
    rw [if_pos hn]
    rfl
  · intro cs
    have hb0 : Balanced n ((⟨n, 0, 0, initLoop connect n 0 [], n⟩ : SqlConnPool), []) :=
      ⟨by show 0 + (initLoop connect n 0 []).length = n; rw [hl]; omega, hl.symm, hnn1⟩
    rcases calls_balanced n cs _ hb0 with ⟨st, hc, h1, h2, h3⟩ | hc
    · left
      refine ⟨st, hc, h1, h2, ?_, ?_⟩
      · intro he
        unfold GetConn
        rw [he]
      · unfold GetConn
        cases hq : st.1.connQue_ with
        | nil => exact fun h => by cases h
        | cons sql rest =>
          rw [hq] at h2
          rw [List.length_cons] at h2
          simp only
          rw [if_neg (by omega)]
          exact fun h => by cases h
    · right
      exact hc

/-- Witness of C10: a pool of two connections with handles 100 and 101; both are taken, a third
`GetConn` returns null, one is released. -/
theorem accounting_witness :
    (0 < 2) ∧
    calls (⟨2, 0, 0, [some 100, some 101], 2⟩, []) [.GetConn, .GetConn, .GetConn, .FreeConn 100]
      = .ok (⟨2, 0, 0, [some 100], 1⟩, [101]) ∧
    ∃ p0, SqlConnPool.new.Init (fun i => some (100 + i)) 2 = .ok p0 ∧ p0.connQue_.length = 2 ∧
      p0.semId_ = 2 ∧
      ∀ cs : List Call,
        (∃ st, calls (p0, []) cs = .ok st ∧
          st.2.length + st.1.connQue_.length = 2 ∧ st.1.semId_ = st.1.connQue_.length ∧
          (st.1.connQue_ = [] → st.1.GetConn = some (st.1, none)) ∧
          st.1.GetConn ≠ none) ∨
        calls (p0, []) cs = .error .notHeld :=
  ⟨by decide, by decide,
    accounting (fun i => some (100 + i)) 2 (by decide) (fun i _ h => by cases h)⟩

end SqlConnPool

/-! ## C11: InitEventMode_ -/

namespace WebServer

/-- The masks `InitEventMode_` leaves, case by case of the `switch`. -/
theorem InitEventMode_cases (s : WebServer) (trigMode : Int) :
    (trigMode = 0 ∧ (s.InitEventMode_ trigMode).listenEvent_ = EPOLLRDHUP ∧
      (s.InitEventMode_ trigMode).connEvent_ = EPOLLONESHOT ||| EPOLLRDHUP) ∨
    (trigMode = 1 ∧ (s.InitEventMode_ trigMode).listenEvent_ = EPOLLRDHUP ∧
      (s.InitEventMode_ trigMode).connEvent_ = EPOLLONESHOT ||| EPOLLRDHUP ||| EPOLLET) ∨
    (trigMode = 2 ∧ (s.InitEventMode_ trigMode).listenEvent_ = EPOLLRDHUP ||| EPOLLET ∧
      (s.InitEventMode_ trigMode).connEvent_ = EPOLLONESHOT ||| EPOLLRDHUP) ∨
    ((trigMode ≠ 0 ∧ trigMode ≠ 1 ∧ trigMode ≠ 2) ∧
      (s.InitEventMode_ trigMode).listenEvent_ = EPOLLRDHUP ||| EPOLLET ∧
      (s.InitEventMode_ trigMode).connEvent_ = EPOLLONESHOT ||| EPOLLRDHUP ||| EPOLLET) := by
  by_cases h0 : trigMode = 0
  · left
    simp [InitEventMode_, h0]
  · by_cases h1 : trigMode = 1
    · right; left
      simp [InitEventMode_, h1]
    · by_cases h2 : trigMode = 2
      · right; right; left
        simp [InitEventMode_, h2]
      · right; right; right
        refine ⟨⟨h0, h1, h2⟩, ?_, ?_⟩
        · by_cases h3 : trigMode = 3
          · simp [InitEventMode_, h3]
          · simp [InitEventMode_, h0, h1, h2, h3]
        · by_cases h3 : trigMode = 3
          · simp [InitEventMode_, h3]
          · simp [InitEventMode_, h0, h1, h2, h3]

theorem InitEventMode_isET (s : WebServer) (trigMode : Int) :
    (s.InitEventMode_ trigMode).isET
      = decide ((s.InitEventMode_ trigMode).connEvent_ &&& EPOLLET ≠ 0) := rfl

/-- C11: `InitEventMode_` decodes `trigMode` as the table says: for `trigMode` in 0..3 the
connection mask has `EPOLLET` iff `trigMode` is 1 or 3 and the listen mask has `EPOLLET` iff
`trigMode` is 2 or 3; any other `trigMode` sets `EPOLLET` in both; `HttpConn::isET` is the
`EPOLLET` bit of the connection mask; and for every `trigMode` the connection mask contains
`EPOLLONESHOT` and `EPOLLRDHUP`, the listen mask contains `EPOLLRDHUP` and not
`EPOLLONESHOT`. -/
theorem InitEventMode_decodes (s : WebServer) (trigMode : Int) :
    ((trigMode = 0 ∨ trigMode = 1 ∨ trigMode = 2 ∨ trigMode = 3) →
      (((s.InitEventMode_ trigMode).connEvent_ &&& EPOLLET = EPOLLET ↔
          (trigMode = 1 ∨ trigMode = 3)) ∧
        ((s.InitEventMode_ trigMode).connEvent_ &&& EPOLLET = 0 ↔
          (trigMode = 0 ∨ trigMode = 2)) ∧
        ((s.InitEventMode_ trigMode).listenEvent_ &&& EPOLLET = EPOLLET ↔
          (trigMode = 2 ∨ trigMode = 3)) ∧
        ((s.InitEventMode_ trigMode).listenEvent_ &&& EPOLLET = 0 ↔
          (trigMode = 0 ∨ trigMode = 1)))) ∧
    (¬ (trigMode = 0 ∨ trigMode = 1 ∨ trigMode = 2 ∨ trigMode = 3) →
      (s.InitEventMode_ trigMode).connEvent_ &&& EPOLLET = EPOLLET ∧
      (s.InitEventMode_ trigMode).listenEvent_ &&& EPOLLET = EPOLLET) ∧
    ((s.InitEventMode_ trigMode).isET = true ↔
      (s.InitEventMode_ trigMode).connEvent_ &&& EPOLLET = EPOLLET) ∧
    (s.InitEventMode_ trigMode).connEvent_ &&& EPOLLONESHOT = EPOLLONESHOT ∧
    (s.InitEventMode_ trigMode).connEvent_ &&& EPOLLRDHUP = EPOLLRDHUP ∧
    (s.InitEventMode_ trigMode).listenEvent_ &&& EPOLLRDHUP = EPOLLRDHUP ∧
    (s.InitEventMode_ trigMode).listenEvent_ &&& EPOLLONESHOT = 0 := by
  have hET := InitEventMode_isET s trigMode
  rcases InitEventMode_cases s trigMode with ⟨h, hl, hc⟩ | ⟨h, hl, hc⟩ | ⟨h, hl, hc⟩ |
    ⟨⟨h0, h1, h2⟩, hl, hc⟩
  · rw [hET, hl, hc, h]
    decide
  · rw [hET, hl, hc, h]
    decide
  · rw [hET, hl, hc, h]
    decide
  · rw [hET, hl, hc]
    have e1 : (EPOLLONESHOT ||| EPOLLRDHUP ||| EPOLLET) &&& EPOLLET = EPOLLET := by decide
    have e2 : (EPOLLRDHUP ||| EPOLLET) &&& EPOLLET = EPOLLET := by decide
    have e3 : EPOLLET ≠ 0 := by decide
    refine ⟨fun hh => ?_, fun _ => ⟨e1, e2⟩, ?_, by decide, by decide, by decide, by decide⟩
    · have h3 : trigMode = 3 := by
        rcases hh with hh | hh | hh | hh
        · exact absurd hh h0
        · exact absurd hh h1
        · exact absurd hh h2
        · exact hh
      rw [e1, e2]
      refine ⟨⟨fun _ => Or.inr h3, fun _ => rfl⟩, ⟨fun hh => absurd hh e3, ?_⟩,
        ⟨fun _ => Or.inr h3, fun _ => rfl⟩, ⟨fun hh => absurd hh e3, ?_⟩⟩
      · intro hh
        rcases hh with hh | hh
        · exact absurd hh h0
        · exact absurd hh h2
      · intro hh
        rcases hh with hh | hh
        · exact absurd hh h0
        · exact absurd hh h1
    · rw [e1]
      decide

/-- Witness of C11: `trigMode = 1` on a server with cleared masks: the connection mask is
`EPOLLONESHOT | EPOLLRDHUP | EPOLLET`, the listen mask `EPOLLRDHUP`. -/
theorem InitEventMode_decodes_witness :
    (InitEventMode_ ⟨60000, 3, 0, 0, [], false⟩ 1).connEvent_ = 3221233664 ∧
    (InitEventMode_ ⟨60000, 3, 0, 0, [], false⟩ 1).listenEvent_ = 8192 ∧
    ((InitEventMode_ ⟨60000, 3, 0, 0, [], false⟩ 1).connEvent_ &&& EPOLLET = EPOLLET ↔
      ((1 : Int) = 1 ∨ (1 : Int) = 3)) :=
  ⟨by decide, by decide,
    ((InitEventMode_decodes ⟨60000, 3, 0, 0, [], false⟩ 1).1 (Or.inr (Or.inl rfl))).1⟩

end WebServer

/-! ## C12: the timer entry across AddClient_ and CloseConn_ -/

theorem HeapTimer.contains_add (t : HeapTimer) (id timeOut now : Int) :
    (t.add id timeOut now).contains id = true := by
  unfold HeapTimer.add
  by_cases h : t.contains id = true
  · rw [if_pos h]
    unfold HeapTimer.contains at h ⊢
    rw [List.any_eq_true] at h ⊢
    obtain ⟨n, hn, hid⟩ := h
    have hid1 : n.id = id := of_decide_eq_true hid
    refine ⟨{ n with expires := now + timeOut }, ?_, decide_eq_true hid1⟩
    rw [List.mem_map]
    exact ⟨n, hn, by rw [if_pos hid1]⟩
  · rw [if_neg h]
    unfold HeapTimer.contains
    rw [List.any_eq_true]
    exact ⟨⟨id, now + timeOut⟩, List.mem_append_right _ (List.mem_singleton_self _),
      decide_eq_true rfl⟩

theorem HeapTimer.applyAll_append (now : Int) (t : HeapTimer) (e1 e2 : List Effect) :
    t.applyAll now (e1 ++ e2) = (t.applyAll now e1).applyAll now e2 := by
  unfold HeapTimer.applyAll
  rw [List.foldl_append]

/-- C12 (as amended): with `timeoutMS_ > 0`, `AddClient_(fd)` returns (for `fd > 0`) and
leaves a timer entry for `fd`; `CloseConn_` on that connection logs, takes the descriptor
out of the reactor and closes the connection, and makes no call on the timer: the timer
after it is the timer before it and still holds the entry for `fd`. -/
theorem WebServer.CloseConn_keeps_timer (s : WebServer) (fd now : Int) (t : HeapTimer)
    (hto : 0 < s.timeoutMS_) (hfd : 0 < fd) :
    ∃ s1 effs, s.AddClient_ fd = .ok (s1, effs) ∧ fd ∈ s1.users_ ∧
      (t.applyAll now effs).contains fd = true ∧
      WebServer.CloseConn_ fd = [.LOG 1 "Client[%d] quit!", .DelFd fd, .conn_Close fd] ∧
      (∀ (now1 : Int) (t1 : HeapTimer), t1.applyAll now1 (WebServer.CloseConn_ fd) = t1) ∧
      (∀ now1 : Int,
        ((t.applyAll now effs).applyAll now1 (WebServer.CloseConn_ fd)).contains fd = true) := by
  have hc : ∀ (now1 : Int) (t1 : HeapTimer), t1.applyAll now1 (WebServer.CloseConn_ fd) = t1 :=
    fun _ _ => rfl
  have hadd : s.AddClient_ fd = .ok
      ({ s with users_ := if fd ∈ s.users_ then s.users_ else fd :: s.users_ },
        [.conn_init fd] ++ [.timer_add fd s.timeoutMS_] ++
        [.AddFd fd (EPOLLIN ||| s.connEvent_), .SetFdNonblock fd, .LOG 1 "Client[%d] in!"]) := by
    unfold WebServer.AddClient_
    rw [if_pos hfd, if_pos hto]
  have hcont : (t.applyAll now ([.conn_init fd] ++ [.timer_add fd s.timeoutMS_] ++
      [.AddFd fd (EPOLLIN ||| s.connEvent_), .SetFdNonblock fd, .LOG 1 "Client[%d] in!"])).contains
      fd = true := by
    have : t.applyAll now ([.conn_init fd] ++ [.timer_add fd s.timeoutMS_] ++
        [.AddFd fd (EPOLLIN ||| s.connEvent_), .SetFdNonblock fd, .LOG 1 "Client[%d] in!"])
        = t.add fd s.timeoutMS_ now := rfl
    rw [this]
    exact HeapTimer.contains_add t fd s.timeoutMS_ now
  refine ⟨_, _, hadd, ?_, hcont, rfl, hc, ?_⟩
  · show fd ∈ (if fd ∈ s.users_ then s.users_ else fd :: s.users_)
    by_cases hm : fd ∈ s.users_
    · rw [if_pos hm]; exact hm
    · rw [if_neg hm]; exact List.mem_cons_self _ _
  · intro now1
    rw [hc]
    exact hcont

/-- Witness of C12: descriptor 5 on a server with a 60 s timeout and an empty timer. -/
theorem WebServer.CloseConn_keeps_timer_witness :
    ∃ s1 effs, WebServer.AddClient_ ⟨60000, 3, 8192, 1073750016, [], false⟩ 5 = .ok (s1, effs) ∧
      (5 : Int) ∈ s1.users_ ∧
      ((⟨[]⟩ : HeapTimer).applyAll 1000 effs).contains 5 = true ∧
      WebServer.CloseConn_ 5 = [.LOG 1 "Client[%d] quit!", .DelFd 5, .conn_Close 5] ∧
      (∀ (now1 : Int) (t1 : HeapTimer), t1.applyAll now1 (WebServer.CloseConn_ 5) = t1) ∧
      (∀ now1 : Int,
        (((⟨[]⟩ : HeapTimer).applyAll 1000 effs).applyAll now1
          (WebServer.CloseConn_ 5)).contains 5 = true) :=
  WebServer.CloseConn_keeps_timer ⟨60000, 3, 8192, 1073750016, [], false⟩ 5 1000 ⟨[]⟩
    (by decide) (by decide)

/-- Counterexample to C12 as stated: with a 60 s timeout and an empty timer, `AddClient_(5)`
followed by `CloseConn_` on that connection leaves the timer holding the node added for
descriptor 5 (expiry 1000 + 60000), although the connection has been closed. -/
theorem WebServer.CloseConn_keeps_timer_counterexample :
    WebServer.AddClient_ ⟨60000, 3, 8192, 1073750016, [], false⟩ 5
      = .ok (⟨60000, 3, 8192, 1073750016, [5], false⟩,
          [.conn_init 5, .timer_add 5 60000, .AddFd 5 1073750017, .SetFdNonblock 5,
            .LOG 1 "Client[%d] in!"]) ∧
    Effect.conn_Close 5 ∈ WebServer.CloseConn_ 5 ∧
    ((⟨[]⟩ : HeapTimer).applyAll 1000
      ([.conn_init 5, .timer_add 5 60000, .AddFd 5 1073750017, .SetFdNonblock 5,
          .LOG 1 "Client[%d] in!"] ++ WebServer.CloseConn_ 5)) = ⟨[⟨5, 61000⟩]⟩ ∧
    (⟨[⟨5, 61000⟩]⟩ : HeapTimer).contains 5 = true := by
  decide

/-! ## C13: OnWrite_ -/

/-- C13 (as amended): the calls of `OnWrite_` after `client->write`, by (bytes left, keep-alive,
`ret`, `errno`, and what `process()` returns): nothing left and keep-alive: `process()` is run
again and the descriptor is re-armed, for `EPOLLOUT` when `process()` returns true and for
`EPOLLIN` when it returns false, without closing; nothing left and no keep-alive: the
connection is closed; bytes left, `ret < 0` and `errno == EAGAIN`: the descriptor is re-armed
for `EPOLLOUT` without closing; every other case (bytes left with `ret >= 0` included): the
connection is closed. -/
theorem WebServer.OnWrite_outcome (s : WebServer) (fd ret writeErrno toWriteBytes : Int)
    (keepAlive processed : Bool) :
    (toWriteBytes = 0 → keepAlive = true →
      s.OnWrite_ fd ret writeErrno toWriteBytes keepAlive processed =
        [.conn_write fd, .conn_process fd,
          .ModFd fd (s.connEvent_ ||| (if processed then EPOLLOUT else EPOLLIN))]) ∧
    (toWriteBytes = 0 → keepAlive = false →
      s.OnWrite_ fd ret writeErrno toWriteBytes keepAlive processed =
        [.conn_write fd] ++ WebServer.CloseConn_ fd) ∧
    (toWriteBytes ≠ 0 → ret < 0 → writeErrno = EAGAIN →
      s.OnWrite_ fd ret writeErrno toWriteBytes keepAlive processed =
        [.conn_write fd, .ModFd fd (s.connEvent_ ||| EPOLLOUT)]) ∧
    (toWriteBytes ≠ 0 → (0 ≤ ret ∨ writeErrno ≠ EAGAIN) →
      s.OnWrite_ fd ret writeErrno toWriteBytes keepAlive processed =
        [.conn_write fd] ++ WebServer.CloseConn_ fd) ∧
    Effect.conn_Close fd ∈ WebServer.CloseConn_ fd := by
  refine ⟨?_, ?_, ?_, ?_, ?_⟩
  · intro h0 hk
    unfold WebServer.OnWrite_ WebServer.OnProcess
    rw [if_pos h0, if_pos hk]
    cases processed <;> rfl
  · intro h0 hk
    unfold WebServer.OnWrite_
    rw [if_pos h0, hk]
    rfl
  · intro h0 hr he
    unfold WebServer.OnWrite_
    rw [if_neg h0, if_pos hr, if_pos he]
    rfl
  · intro h0 hr
    unfold WebServer.OnWrite_
    rw [if_neg h0]
    by_cases hlt : ret < 0
    · rw [if_pos hlt]
      have he : writeErrno ≠ EAGAIN := by
        rcases hr with hr | hr
        · omega
        · exact hr
      rw [if_neg he]
    · rw [if_neg hlt]
  · unfold WebServer.CloseConn_
    exact List.mem_cons_of_mem _ (List.mem_cons_of_mem _ (List.mem_singleton_self _))

/-- Witness of C13: the write drained everything on a keep-alive connection and `process()`
found nothing to answer: the descriptor is re-armed for `EPOLLIN`. -/
theorem WebServer.OnWrite_outcome_witness :
    WebServer.OnWrite_ ⟨60000, 3, 8192, 1073750016, [5], false⟩ 5 120 0 0 true false =
      [.conn_write 5, .conn_process 5, .ModFd 5 (1073750016 ||| EPOLLIN)] :=
  (WebServer.OnWrite_outcome ⟨60000, 3, 8192, 1073750016, [5], false⟩ 5 120 0 0 true false).1
    rfl rfl

/-- Counterexample to C13 as stated: nothing is left to write, the request is keep-alive, and
`process()` returns true (a further request is already buffered): `OnProcess` re-arms the
descriptor with `connEvent_ | EPOLLOUT`, a mask that has `EPOLLOUT` and not `EPOLLIN`. -/
theorem WebServer.OnWrite_outcome_counterexample :
    WebServer.OnWrite_ ⟨60000, 3, 8192, 1073750016, [5], false⟩ 5 120 0 0 true true =
      [.conn_write 5, .conn_process 5, .ModFd 5 1073750020] ∧
    1073750020 &&& EPOLLOUT = EPOLLOUT ∧ 1073750020 &&& EPOLLIN = 0 := by
  decide

/-! ## C14: the masks handed to the reactor -/

namespace WebServer

theorem CloseConn_events (fd : Int) (e : Effect) (he : e ∈ CloseConn_ fd) : e.events = none := by
  unfold CloseConn_ at he
  simp only [List.mem_cons, List.mem_singleton, List.not_mem_nil, or_false] at he
  rcases he with he | he | he <;> rw [he] <;> rfl

theorem OnProcess_events (s : WebServer) (fd : Int) (processed : Bool) (e : Effect)
    (he : e ∈ s.OnProcess fd processed) (m : Nat) (hm : e.events = some m) :
    m = s.connEvent_ ||| EPOLLOUT ∨ m = s.connEvent_ ||| EPOLLIN := by
  unfold OnProcess at he
  cases processed
  · simp only [Bool.false_eq_true, if_false, List.singleton_append, List.mem_cons,
      List.mem_singleton, List.not_mem_nil, or_false] at he
    rcases he with he | he
    · rw [he] at hm; cases hm
    · rw [he] at hm
      right
      exact (Option.some.inj hm).symm
  · simp only [if_true, List.singleton_append, List.mem_cons, List.mem_singleton,
      List.not_mem_nil, or_false] at he
    rcases he with he | he
    · rw [he] at hm; cases hm
    · rw [he] at hm
      left
      exact (Option.some.inj hm).symm

theorem OnWrite_events (s : WebServer) (fd ret writeErrno toWriteBytes : Int)
    (keepAlive processed : Bool) (e : Effect)
    (he : e ∈ s.OnWrite_ fd ret writeErrno toWriteBytes keepAlive processed) (m : Nat)
    (hm : e.events = some m) :
    m = s.connEvent_ ||| EPOLLOUT ∨ m = s.connEvent_ ||| EPOLLIN := by
  unfold OnWrite_ at he
  rw [List.mem_append] at he
  rcases he with he | he
  · rw [List.mem_singleton] at he
    rw [he] at hm; cases hm
  · split at he
    · split at he
      · exact OnProcess_events s fd processed e he m hm
      · rw [CloseConn_events fd e he] at hm; cases hm
    · split at he
      · split at he
        · rw [List.mem_singleton] at he
          rw [he] at hm
          left
          exact (Option.some.inj hm).symm
        · rw [CloseConn_events fd e he] at hm; cases hm
      · rw [CloseConn_events fd e he] at hm; cases hm

theorem OnRead_events (s : WebServer) (fd ret readErrno : Int) (processed : Bool) (e : Effect)
    (he : e ∈ s.OnRead_ fd ret readErrno processed) (m : Nat) (hm : e.events = some m) :
    m = s.connEvent_ ||| EPOLLOUT ∨ m = s.connEvent_ ||| EPOLLIN := by
  unfold OnRead_ at he
  rw [List.mem_append] at he
  rcases he with he | he
  · rw [List.mem_singleton] at he
    rw [he] at hm; cases hm
  · split at he
    · rw [CloseConn_events fd e he] at hm; cases hm
    · exact OnProcess_events s fd processed e he m hm

theorem AddClient_events (s s1 : WebServer) (fd : Int) (effs : List Effect)
    (h : s.AddClient_ fd = .ok (s1, effs)) (e : Effect) (he : e ∈ effs) (m : Nat)
    (hm : e.events = some m) : m = EPOLLIN ||| s.connEvent_ := by
  unfold AddClient_ at h
  split at h
  · cases h
    simp only [List.mem_append, List.mem_cons, List.mem_singleton, List.not_mem_nil,
      or_false] at he
    rcases he with (he | he) | he | he | he
    · rw [he] at hm; cases hm
    · split at he
      · rw [List.mem_singleton] at he
        rw [he] at hm; cases hm
      · cases he
    · rw [he] at hm
      exact (Option.some.inj hm).symm
    · rw [he] at hm; cases hm
    · rw [he] at hm; cases hm
  · cases h

/-- C14: for every `trigMode`, every event mask the server hands to the reactor for a
connection descriptor (`AddFd` in `AddClient_`, `ModFd` in `OnProcess`, also when reached
from `OnRead_` or `OnWrite_`, and `ModFd` in `OnWrite_`) contains exactly one of `EPOLLIN`
and `EPOLLOUT` and contains `EPOLLONESHOT`. -/
theorem connection_masks (s : WebServer) (trigMode fd ret errno toWriteBytes : Int)
    (keepAlive processed : Bool) (e : Effect) (m : Nat) (hm : e.events = some m)
    (he : (∃ s1 effs, (s.InitEventMode_ trigMode).AddClient_ fd = .ok (s1, effs) ∧ e ∈ effs) ∨
      e ∈ (s.InitEventMode_ trigMode).OnProcess fd processed ∨
      e ∈ (s.InitEventMode_ trigMode).OnRead_ fd ret errno processed ∨
      e ∈ (s.InitEventMode_ trigMode).OnWrite_ fd ret errno toWriteBytes keepAlive processed) :
    ((m &&& EPOLLIN = EPOLLIN ∧ m &&& EPOLLOUT = 0) ∨
      (m &&& EPOLLIN = 0 ∧ m &&& EPOLLOUT = EPOLLOUT)) ∧
    m &&& EPOLLONESHOT = EPOLLONESHOT := by
  have hmask : m = EPOLLIN ||| (s.InitEventMode_ trigMode).connEvent_ ∨
      m = (s.InitEventMode_ trigMode).connEvent_ ||| EPOLLOUT ∨
      m = (s.InitEventMode_ trigMode).connEvent_ ||| EPOLLIN := by
    rcases he with ⟨s1, effs, h1, h2⟩ | he | he | he
    · exact Or.inl (AddClient_events _ s1 fd effs h1 e h2 m hm)
    · exact Or.inr (OnProcess_events _ fd processed e he m hm)
    · exact Or.inr (OnRead_events _ fd ret errno processed e he m hm)
    · exact Or.inr (OnWrite_events _ fd ret errno toWriteBytes keepAlive processed e he m hm)
  have hconn : (s.InitEventMode_ trigMode).connEvent_ = EPOLLONESHOT ||| EPOLLRDHUP ∨
      (s.InitEventMode_ trigMode).connEvent_ = EPOLLONESHOT ||| EPOLLRDHUP ||| EPOLLET := by
    rcases InitEventMode_cases s trigMode with ⟨-, -, hc⟩ | ⟨-, -, hc⟩ | ⟨-, -, hc⟩ | ⟨-, -, hc⟩
    · exact Or.inl hc
    · exact Or.inr hc
    · exact Or.inl hc
    · exact Or.inr hc
  rcases hconn with hc | hc <;> rw [hc] at hmask <;> rcases hmask with h | h | h <;>
    rw [h] <;> decide

/-- Witness of C14: `trigMode = 3`; the mask `AddClient_(5)` registers is
`EPOLLIN | EPOLLONESHOT | EPOLLRDHUP | EPOLLET`. -/
theorem connection_masks_witness :
    (Effect.AddFd 5 3221233665).events = some 3221233665 ∧
    (((3221233665 &&& EPOLLIN = EPOLLIN ∧ 3221233665 &&& EPOLLOUT = 0) ∨
      (3221233665 &&& EPOLLIN = 0 ∧ 3221233665 &&& EPOLLOUT = EPOLLOUT)) ∧
    3221233665 &&& EPOLLONESHOT = EPOLLONESHOT) :=
  ⟨rfl, connection_masks ⟨60000, 3, 0, 0, [], false⟩ 3 5 0 0 0 false false
    (.AddFd 5 3221233665) 3221233665 rfl
    (Or.inl ⟨⟨60000, 3, 2147491840, 3221233664, [5], true⟩,
      [.conn_init 5, .timer_add 5 60000, .AddFd 5 3221233665, .SetFdNonblock 5,
        .LOG 1 "Client[%d] in!"], by decide, by decide⟩)⟩

end WebServer

/-! ## C15: dispatch in Start -/

theorem lor_eq_zero_iff (a b : Nat) : a ||| b = 0 ↔ a = 0 ∧ b = 0 := by
  constructor
  · intro h
    have hbit : ∀ i, a.testBit i = false ∧ b.testBit i = false := by
      intro i
      have := congrArg (fun x => x.testBit i) h
      simp only [Nat.testBit_or, Nat.zero_testBit, Bool.or_eq_false_iff] at this
      exact this
    constructor
    · apply Nat.eq_of_testBit_eq
      intro i
      rw [(hbit i).1, Nat.zero_testBit]
    · apply Nat.eq_of_testBit_eq
      intro i
      rw [(hbit i).2, Nat.zero_testBit]
  · rintro ⟨ha, hb⟩
    rw [ha, hb]
    rfl

theorem hangup_bits (events : Nat) :
    events &&& (EPOLLRDHUP ||| EPOLLHUP ||| EPOLLERR) ≠ 0 ↔
      (events &&& EPOLLRDHUP ≠ 0 ∨ events &&& EPOLLHUP ≠ 0 ∨ events &&& EPOLLERR ≠ 0) := by
  rw [Nat.and_or_distrib_left, Nat.and_or_distrib_left, Ne, lor_eq_zero_iff, lor_eq_zero_iff]
  constructor
  · intro h
    by_cases h1 : events &&& EPOLLRDHUP = 0
    · by_cases h2 : events &&& EPOLLHUP = 0
      · by_cases h3 : events &&& EPOLLERR = 0
        · exact absurd ⟨⟨h1, h2⟩, h3⟩ h
        · exact Or.inr (Or.inr h3)
      · exact Or.inr (Or.inl h2)
    · exact Or.inl h1
  · rintro (h | h | h) ⟨⟨h1, h2⟩, h3⟩
    · exact h h1
    · exact h h2
    · exact h h3

/-- C15 (as amended): the event loop of `Start()` selects one action per ready event
`(fd, events)`, in this order: `fd == listenFd_`: the accept path, whatever the mask;
otherwise, for a connection descriptor (a key of `users_`): any of `EPOLLRDHUP`, `EPOLLHUP`,
`EPOLLERR` set: the connection is closed, whatever else is set; otherwise `EPOLLIN` set:
`ExtentTime_` (which adjusts the timer when `timeoutMS_ > 0` and does nothing otherwise) and
`OnRead_` submitted, also when `EPOLLOUT` is set; otherwise `EPOLLOUT` set: `ExtentTime_`
and `OnWrite_` submitted; otherwise only "Unexpected event" is logged. -/
theorem WebServer.StartEvent_priority (s : WebServer) (fd : Int) (events : Nat) :
    (fd = s.listenFd_ → s.StartEvent fd events = .ok [.DealListen_]) ∧
    (fd ≠ s.listenFd_ → fd ∈ s.users_ →
      (events &&& EPOLLRDHUP ≠ 0 ∨ events &&& EPOLLHUP ≠ 0 ∨ events &&& EPOLLERR ≠ 0) →
      s.StartEvent fd events = .ok [.LOG 1 "Client[%d] quit!", .DelFd fd, .conn_Close fd]) ∧
    (fd ≠ s.listenFd_ → fd ∈ s.users_ →
      events &&& EPOLLRDHUP = 0 → events &&& EPOLLHUP = 0 → events &&& EPOLLERR = 0 →
      events &&& EPOLLIN ≠ 0 →
      s.StartEvent fd events = .ok
        ((if s.timeoutMS_ > 0 then [.timer_adjust fd s.timeoutMS_] else []) ++
          [.AddTask (.OnRead_ fd)])) ∧
    (fd ≠ s.listenFd_ → fd ∈ s.users_ →
      events &&& EPOLLRDHUP = 0 → events &&& EPOLLHUP = 0 → events &&& EPOLLERR = 0 →
      events &&& EPOLLIN = 0 → events &&& EPOLLOUT ≠ 0 →
      s.StartEvent fd events = .ok
        ((if s.timeoutMS_ > 0 then [.timer_adjust fd s.timeoutMS_] else []) ++
          [.AddTask (.OnWrite_ fd)])) ∧
    (fd ≠ s.listenFd_ →
      events &&& EPOLLRDHUP = 0 → events &&& EPOLLHUP = 0 → events &&& EPOLLERR = 0 →
      events &&& EPOLLIN = 0 → events &&& EPOLLOUT = 0 →
      s.StartEvent fd events = .ok [.LOG 3 "Unexpected event"]) := by
  have hnone : events &&& EPOLLRDHUP = 0 → events &&& EPOLLHUP = 0 → events &&& EPOLLERR = 0 →
      ¬ (events &&& (EPOLLRDHUP ||| EPOLLHUP ||| EPOLLERR) ≠ 0) := by
    intro h1 h2 h3 h
    rcases (hangup_bits events).mp h with h | h | h
    · exact h h1
    · exact h h2
    · exact h h3
  refine ⟨?_, ?_, ?_, ?_, ?_⟩
  · intro h
    unfold WebServer.StartEvent
    rw [if_pos h]
  · intro h hu hb
    unfold WebServer.StartEvent
    rw [if_neg h, if_pos ((hangup_bits events).mpr hb), if_pos hu]
    rfl
  · intro h hu h1 h2 h3 hin
    unfold WebServer.StartEvent
    rw [if_neg h, if_neg (hnone h1 h2 h3), if_pos hin, if_pos hu]
    rfl
  · intro h hu h1 h2 h3 hin hout
    unfold WebServer.StartEvent
    rw [if_neg h, if_neg (hnone h1 h2 h3), if_neg (fun hh => hh hin), if_pos hout, if_pos hu]
    rfl
  · intro h h1 h2 h3 hin hout
    unfold WebServer.StartEvent
    rw [if_neg h, if_neg (hnone h1 h2 h3), if_neg (fun hh => hh hin), if_neg (fun hh => hh hout)]

/-- Witness of C15: with a 60 s timeout, descriptor 5 ready for reading and writing at once
takes the read path. -/
theorem WebServer.StartEvent_priority_witness :
    WebServer.StartEvent ⟨60000, 3, 8192, 1073750016, [5], false⟩ 5 (EPOLLIN ||| EPOLLOUT)
      = .ok ((if (60000 : Int) > 0 then [Effect.timer_adjust 5 60000] else []) ++
          [.AddTask (.OnRead_ 5)]) :=
  (WebServer.StartEvent_priority ⟨60000, 3, 8192, 1073750016, [5], false⟩ 5
    (EPOLLIN ||| EPOLLOUT)).2.2.1 (by decide) (by decide) (by decide) (by decide) (by decide)
    (by decide)

/-- Counterexample to C15 as stated: with `timeoutMS_ = 0` a readable (or writable) connection
descriptor gets its task submitted and no call is made on the timer. -/
theorem WebServer.StartEvent_priority_counterexample :
    WebServer.StartEvent ⟨0, 3, 8192, 1073750016, [5], false⟩ 5 EPOLLIN
      = .ok [.AddTask (.OnRead_ 5)] ∧
    WebServer.StartEvent ⟨0, 3, 8192, 1073750016, [5], false⟩ 5 EPOLLOUT
      = .ok [.AddTask (.OnWrite_ 5)] := by
  decide

/-! ## C16: the write block of Log::write -/

theorem Buffer.Append_room (b : Buffer) (s : List Byte) (hinv : b.Inv)
    (hcap : b.buffer_.length < SIZE_MOD) (h : s.length ≤ b.buffer_.length - b.writePos_) :
    b.Append s = .ok ⟨b.buffer_.take b.writePos_ ++ s ++ b.buffer_.drop (b.writePos_ + s.length),
      b.readPos_, b.writePos_ + s.length⟩ := by
  have he := Buffer.EnsureWriteable_room b s.length hinv hcap h
  have i2 := hinv.2
  have hcopy := copyTo_ok b.buffer_ b.writePos_ s (by omega)
  have hw : sizeAdd b.writePos_ s.length = b.writePos_ + s.length := sizeAdd_eq _ _ (by omega)
  unfold Buffer.Append
  simp only [he, hcopy, Buffer.HasWritten, hw]

theorem snprintfAt_ok (buf : List Byte) (pos size : Nat) (out : List Byte) (hs : size ≠ 0)
    (hfit : pos + size ≤ buf.length) :
    ∃ buf1, snprintfAt buf pos size out = .ok (buf1, out.length) ∧ buf1.length = buf.length := by
  have hl : (out.take (size - 1) ++ [0]).length ≤ size := by
    rw [List.length_append, List.length_take, List.length_singleton]
    omega
  have hcopy := copyTo_ok buf pos (out.take (size - 1) ++ [0]) (by omega)
  refine ⟨buf.take pos ++ (out.take (size - 1) ++ [0]) ++
    buf.drop (pos + (out.take (size - 1) ++ [0]).length), ?_, ?_⟩
  · unfold snprintfAt
    rw [if_neg hs, hcopy]
  · simp only [List.length_append, List.length_take, List.length_drop, List.length_singleton]
    simp only [List.length_append, List.length_take, List.length_singleton] at hl
    omega

theorem Log.title_length (b : Buffer) (level : Int) :
    ∃ t : List Byte, t.length = 9 ∧ Log.AppendLogLevelTitle_ b level = b.Append t := by
  unfold Log.AppendLogLevelTitle_
  by_cases h0 : level = 0
  · exact ⟨bytesOf "[debug]: ", by decide, by rw [if_pos h0]⟩
  · by_cases h1 : level = 1
    · exact ⟨bytesOf "[info] : ", by decide, by rw [if_neg h0, if_pos h1]⟩
    · by_cases h2 : level = 2
      · exact ⟨bytesOf "[warn] : ", by decide, by rw [if_neg h0, if_neg h1, if_pos h2]⟩
      · by_cases h3 : level = 3
        · exact ⟨bytesOf "[error]: ", by decide,
            by rw [if_neg h0, if_neg h1, if_neg h2, if_pos h3]⟩
        · exact ⟨bytesOf "[info] : ", by decide,
            by rw [if_neg h0, if_neg h1, if_neg h2, if_neg h3]⟩

/-- The state of `buff_` after the time stamp, the level title and `HasWritten(m)`: the
capacity is still 1024 and the write cursor is `n + 9 + m`. -/
theorem Log.formatBody_cursor (stamp msg : List Byte) (level : Int) (hn : stamp.length ≤ 127)
    (hm : msg.length ≤ 2147483647) :
    ∃ b3, Log.formatBody (Buffer.init 1024) stamp level msg = .ok b3 ∧
      b3.buffer_.length = 1024 ∧ b3.readPos_ = 0 ∧
      b3.writePos_ = stamp.length + 9 + msg.length := by
  have hlen0 : (Buffer.init 1024).buffer_.length = 1024 := List.length_replicate _ _
  obtain ⟨buf1, hs1, hl1⟩ := snprintfAt_ok (Buffer.init 1024).buffer_
    (Buffer.init 1024).writePos_ 128 stamp (by decide)
    (by rw [hlen0]; show 0 + 128 ≤ 1024; decide)
  rw [hlen0] at hl1
  have hw1 : sizeAdd 0 stamp.length = stamp.length := by
    rw [sizeAdd_eq _ _ (by unfold SIZE_MOD; omega)]; omega
  obtain ⟨t, ht, htitle⟩ := Log.title_length ⟨buf1, 0, stamp.length⟩ level
  have hinv1 : Buffer.Inv ⟨buf1, 0, stamp.length⟩ := ⟨Nat.zero_le _, by show stamp.length ≤ buf1.length; omega⟩
  have happ := Buffer.Append_room ⟨buf1, 0, stamp.length⟩ t hinv1
    (by show buf1.length < SIZE_MOD; rw [hl1]; decide)
    (by show t.length ≤ buf1.length - stamp.length; omega)
  simp only at happ
  have hl2 : (buf1.take stamp.length ++ t ++ buf1.drop (stamp.length + t.length)).length = 1024 := by
    simp only [List.length_append, List.length_take, List.length_drop]
    omega
  have hW : Buffer.WritableBytes ⟨buf1.take stamp.length ++ t ++ buf1.drop (stamp.length + t.length),
      0, stamp.length + t.length⟩ = 1024 - (stamp.length + 9) := by
    unfold Buffer.WritableBytes
    simp only [hl2]
    rw [sizeSub_eq _ _ (by omega) (by decide), ht]
  obtain ⟨buf3, hs3, hl3⟩ := snprintfAt_ok
    (buf1.take stamp.length ++ t ++ buf1.drop (stamp.length + t.length)) (stamp.length + t.length)
    (1024 - (stamp.length + 9)) msg (by omega) (by rw [hl2]; omega)
  have hw3 : sizeAdd (stamp.length + t.length) msg.length = stamp.length + 9 + msg.length := by
    rw [sizeAdd_eq _ _ (by unfold SIZE_MOD; omega), ht]
  refine ⟨⟨buf3, 0, stamp.length + 9 + msg.length⟩, ?_, by rw [hl3, hl2], rfl, rfl⟩
  have hr0 : (Buffer.init 1024).readPos_ = 0 := rfl
  have hw0 : (Buffer.init 1024).writePos_ = 0 := rfl
  rw [hw0] at hs1
  unfold Log.formatBody
  simp only [hs1, Buffer.HasWritten, hr0, hw0, hw1, htitle, happ, hW, hs3, hw3]

/-- C16, the code at its failing inputs and at the others: from the emptied formatting buffer of
capacity 1024, with a time stamp of `n ≤ 127` bytes and a message of formatted length `m`:
when `m ≤ 1024 - (n + 9)` the write block up to `Append("\n\0", 2)` returns with
`writePos_ ≤ capacity`; when `m > 1024 - (n + 9)`, `HasWritten(m)` leaves the write cursor at
`n + 9 + m`, beyond the capacity (still 1024), the `assert` of `EnsureWriteable(2)` passes on
the wrapped `WritableBytes`, and `Append("\n\0", 2)` copies outside the storage. -/
theorem Log.formatLine_cursor (stamp msg : List Byte) (level : Int) (hn : stamp.length ≤ 127)
    (hm : msg.length ≤ 2147483647) :
    (msg.length ≤ 1024 - (stamp.length + 9) →
      ∃ b4, Log.formatLine (Buffer.init 1024) stamp level msg = .ok b4 ∧ b4.Inv) ∧
    (1024 - (stamp.length + 9) < msg.length →
      (∃ b3, Log.formatBody (Buffer.init 1024) stamp level msg = .ok b3 ∧
        b3.buffer_.length = 1024 ∧ b3.writePos_ = stamp.length + 9 + msg.length ∧
        b3.buffer_.length < b3.writePos_ ∧ 2 ≤ b3.WritableBytes) ∧
      Log.formatLine (Buffer.init 1024) stamp level msg = .error .outOfBounds) := by
  obtain ⟨b3, hb, hl, hr, hw⟩ := Log.formatBody_cursor stamp msg level hn hm
  constructor
  · intro hfit
    have hinv : b3.Inv := ⟨by rw [hr]; exact Nat.zero_le _, by rw [hw, hl]; omega⟩
    obtain ⟨b4, h4, hinv4, -, -⟩ := Buffer.Append_spec b3 [10, 0] hinv (by rw [hl]; decide)
      (Or.inr (by
        rw [hw]; unfold PTRDIFF_MAX; simp only [List.length_cons, List.length_nil]; omega))
    refine ⟨b4, ?_, hinv4⟩
    unfold Log.formatLine
    rw [hb]
    exact h4
  · intro hover
    have hW : b3.WritableBytes = SIZE_MOD + 1024 - (stamp.length + 9 + msg.length) := by
      unfold Buffer.WritableBytes sizeSub
      rw [hl, hw]
      unfold SIZE_MOD
      omega
    have hW2 : 2 ≤ b3.WritableBytes := by
      rw [hW]; unfold SIZE_MOD; omega
    refine ⟨⟨b3, hb, hl, hw, by rw [hl, hw]; omega, hW2⟩, ?_⟩
    have he : b3.EnsureWriteable 2 = .ok b3 := by
      unfold Buffer.EnsureWriteable
      rw [if_neg (by omega)]
      simp only [ge_iff_le]
      rw [if_pos hW2]
    have hcopy : copyTo b3.buffer_ b3.writePos_ [10, 0] = .error .outOfBounds := by
      unfold copyTo
      rw [if_neg (by rw [hl, hw]; simp only [List.length_cons, List.length_nil]; omega)]
      rfl
    unfold Log.formatLine
    rw [hb]
    unfold Buffer.Append
    simp only [List.length_cons, List.length_nil, Nat.zero_add, Nat.reduceAdd, he, hcopy]

set_option maxRecDepth 20000 in
/-- Witness of C16: a time stamp of 27 bytes, level 1 and a message of 1000 bytes: the cursor
would go to 1036 and the two closing bytes are copied outside the 1024 bytes of storage. -/
theorem Log.formatLine_cursor_witness :
    Log.formatLine (Buffer.init 1024) (bytesOf "2026-11-01 12:00:00.000000 ") 1
      (List.replicate 1000 65) = .error .outOfBounds :=
  ((Log.formatLine_cursor (bytesOf "2026-11-01 12:00:00.000000 ") (List.replicate 1000 65) 1
    (by decide) (by rw [List.length_replicate]; decide)).2
    (by rw [List.length_replicate]; decide)).2
